import Mathlib

/-!
Shallow embedding of the `exec` package: a wrapper around `os/exec` that adds
pipelines (`Pipe`), tracing spans and logging.

Modelling choices:
* Mutation of the Go `Cmd` values is explicit state passing: every operation
  returns the updated descriptor chain.
* Calls to the external collaborators (the tracer, the logger, the process
  spawn primitive, the pipe closer) are recorded in an event trace
  (`List Event`), in the order the Go code performs them.
* Fresh identifiers (span ids, process ids, pipe ids, stderr-buffer ids) are
  drawn from an explicit counter threaded through every operation.
* The ambient system (`PATH` lookup, `filepath.Clean`, `os.Environ`, and the
  outcome of spawning/waiting on a process of a given path) is a record of
  functions `Sys`.
-/

namespace Exec

/-- Status codes of the tracing collaborator (`codes.Ok` / `codes.Error`). -/
inductive StatusCode where
  | ok
  | error
  deriving DecidableEq, Repr

/-- The part of a `context.Context` this package observes: the span carried in
it (`trace.SpanFromContext`).  `none` models a context without a span, for
which the collaborator returns a no-op span whose calls are unobservable. -/
structure Ctx where
  span : Option Nat
  deriving DecidableEq, Repr

/-- Error values produced by the package and the collaborators it consumes. -/
inductive Err where
  | alreadyStarted
  | notStarted
  | alreadyWaited
  | notFound (name : String)
  | spawnFailed (msg : String)
  | exitError (code : Int)
  deriving DecidableEq, Repr

/-- The `Error()` strings of the error values: the `errors.New` texts of
`exec.go`, the `exec.Error`/`ErrNotFound` text and the `ExitError` text of
`os/exec`. -/
def errMsg : Err → String
  | .alreadyStarted => "exec: already started"
  | .notStarted => "exec: not started"
  | .alreadyWaited => "exec: Wait was already called"
  | .notFound n => "exec: " ++ n ++ ": executable file not found in $PATH"
  | .spawnFailed m => m
  | .exitError k => "exit status " ++ toString k

/-- Output sinks: a caller-supplied writer, the private stderr capture buffer
(`c.stdErr`), a duplicating `io.MultiWriter`, or the write end of an internal
pipe created by the wiring pass. -/
inductive Sink where
  | writer (id : Nat)
  | buf (id : Nat)
  | multi (a b : Sink)
  | pipeWriter (id : Nat)
  deriving DecidableEq, Repr

/-- Input sources: a caller-supplied reader or the read end of an internal
pipe. -/
inductive Source where
  | reader (id : Nat)
  | pipeReader (id : Nat)
  deriving DecidableEq, Repr

/-- The resource handle released by `Wait`: `io.NopCloser(nil)` by default, or
the write end of the internal pipe registered by the wiring pass. -/
inductive Closer where
  | nop
  | pipeWriter (id : Nat)
  deriving DecidableEq, Repr

/-- One call to an external collaborator, in program order. -/
inductive Event where
  | spanStart (sid : Nat) (name : String) (attrArgs : List String)
  | spanSetStatus (sid : Nat) (code : StatusCode) (msg : String)
  | spanRecordError (sid : Nat) (msg : String)
  | spanSetExitCode (sid : Nat) (code : Int)
  | spanEnd (sid : Nat)
  | procStart (pid : Nat) (path : String) (args : List String) (env : List String)
  | procWait (pid : Nat) (exitCode : Int)
  | closeCloser (c : Closer)
  | logDebug (lid : Nat) (msg : String)
  deriving DecidableEq, Repr

/-- The ambient system: path resolution (`exec.LookPath`, `none` when the
executable is not found), `filepath.Clean`, the inherited environment
(`os.Environ`), and the behaviour of the spawned processes — whether spawning
a given path fails (`startErr`) and the exit code its wait reports
(`exitCode`). -/
structure Sys where
  lookPath : String → Option String
  clean : String → String
  environ : List String
  startErr : String → Option String
  exitCode : String → Int

/-- The per-node state of a descriptor: the embedded `exec.Cmd` fields
(`Path`, `Args`, `Env`, `Stdin`, `Stdout`, `Stderr`, `Err`, `Process`,
`ProcessState`) and the wrapper's private fields (`ctx`, `stdErr`, `closer`,
`tracer`, `logger`).  `process` is the pid of the live process handle;
`processState` is the exit code once `Wait` has collected it.  `tracer` and
`logger` are opaque collaborator identities (0 is the default no-op one).
`argsRedaction` is modelled from the spec (see `telemetryArgs`). -/
structure CmdData where
  path : String
  args : List String
  env : List String
  stdin : Option Source
  stdout : Option Sink
  stderr : Option Sink
  err : Option Err
  process : Option Nat
  processState : Option Int
  ctx : Ctx
  stdErrBuf : Nat
  closer : Closer
  tracer : Nat
  logger : Nat
  argsRedaction : Option (List String → List String)

/-- A descriptor chain: one node's data plus the optional `Next` descriptor.
The singly linked list is acyclic by construction of the inductive type. -/
inductive Cmd where
  | mk (data : CmdData) (next : Option Cmd)

/-- The data of the head node. -/
def headData : Cmd → CmdData
  | .mk d _ => d

/-- The `Next` pointer of the head node. -/
def nextOf : Cmd → Option Cmd
  | .mk _ next => next

/-- The node data of the whole chain, head first. -/
def nodesData : Cmd → List CmdData
  | .mk d none => [d]
  | .mk d (some n) => d :: nodesData n

/-- The data of the chain's tail node. -/
def lastData : Cmd → CmdData
  | .mk d none => d
  | .mk _ (some n) => lastData n

/-- Number of stages in the chain. -/
def chainLen : Cmd → Nat
  | .mk _ none => 1
  | .mk _ (some n) => chainLen n + 1

/-- The closers registered along the chain. -/
def closersOf : Cmd → List Closer
  | .mk d none => [d.closer]
  | .mk d (some n) => d.closer :: closersOf n

/-- Replace the head node's context (`c.Next.ctx = ctx` in `Start`). -/
def withCtx (ctx : Ctx) : Cmd → Cmd
  | .mk d next => .mk { d with ctx := ctx } next

/-- The span carried by the head node's context. -/
def ctxSpan : Cmd → Option Nat
  | .mk d _ => d.ctx.span

/-- Set the head node's `Err` field (`c.Err = setupCmd(c)`). -/
def setErr (c : Cmd) (e : Option Err) : Cmd :=
  match c with
  | .mk d next => .mk { d with err := e } next

/-- `filepath.Base` for the simple slash-separated paths of this model. -/
def baseName (p : String) : String :=
  match (p.splitOn "/").getLast? with
  | some s => s
  | none => p

/-- The underlying `exec.Cmd.String()`: when path resolution failed the
original arguments joined by spaces, otherwise the resolved path followed by
the arguments after the first. -/
def goCmdString (d : CmdData) : String :=
  match d.err with
  | some _ => String.intercalate " " d.args
  | none => (d.args.drop 1).foldl (fun acc a => acc ++ " " ++ a) d.path

/-- The wrapper's `String()`: the node's own rendering, then recursively the
next stage's after a literal pipe separator. -/
def cmdString : Cmd → String
  | .mk d none => goCmdString d
  | .mk d (some n) => goCmdString d ++ " | " ++ cmdString n

/-- The `TRACE_ID=...` environment entry injected by `Start`; the identifier
string is a function of the span. -/
def traceEnvEntry (sid : Nat) : String := "TRACE_ID=" ++ toString sid

/-- The `SPAN_ID=...` environment entry injected by `Start`. -/
def spanEnvEntry (sid : Nat) : String := "SPAN_ID=" ++ toString sid

/-- The stderr sink after `Start` wires the duplicating capture: the private
buffer itself when no sink was set, else `io.MultiWriter(c.stdErr, old)`. -/
def wiredStderr (d : CmdData) : Sink :=
  match d.stderr with
  | none => .buf d.stdErrBuf
  | some s => .multi (.buf d.stdErrBuf) s

/-- Modelled from the spec: `SetArgsRedaction(fn)` supplies a transform
applied only to the argument list used for telemetry tagging, not to the
spawned argument list.  The function installing the transform and its use in
`Start` are code of this repository missing from `src/` (only the tests call
`WithArgsRedaction`); the field and this definition follow the spec's words. -/
def telemetryArgs (d : CmdData) : List String :=
  match d.argsRedaction with
  | some fn => fn d.args
  | none => d.args

/-- The result of an operation: the returned error, the updated descriptor
chain, the next fresh identifier, and the collaborator calls made. -/
abbrev OpRes := Option Err × Cmd × Nat × List Event

/-- Returned error of an operation. -/
def resErr (r : OpRes) : Option Err := r.1

/-- Updated descriptor chain of an operation. -/
def resCmd (r : OpRes) : Cmd := r.2.1

/-- Fresh-identifier counter after an operation. -/
def resFresh (r : OpRes) : Nat := r.2.2.1

/-- Event trace of an operation. -/
def resEvents (r : OpRes) : List Event := r.2.2.2

/-- `Cmd.Start`: guard against a live process handle; open the span tagged
with the (possibly redacted) argument list; wire the duplicating stderr sink;
replace the context with the span-bearing one; inject the trace identifiers
into the environment; propagate the new context to the next stage; then invoke
the underlying spawn (`exec.Cmd.Start`), which reports the deferred
construction error if present, else the system's spawn outcome.  On spawn
failure the error is recorded on the span and the span is ended; on success
the span is marked ok and stays open. -/
def start (sys : Sys) (c : Cmd) (f : Nat) : OpRes :=
  match c with
  | .mk d next =>
    match d.process with
    | some _ => (some .alreadyStarted, .mk d next, f, [])
    | none =>
      let sid := f
      let ctx1 : Ctx := ⟨some sid⟩
      let env1 := d.env ++ [traceEnvEntry sid, spanEnvEntry sid]
      let next1 := next.map (withCtx ctx1)
      let d1 : CmdData :=
        { d with stderr := some (wiredStderr d), ctx := ctx1, env := env1 }
      let openEv := Event.spanStart sid "exec:run" (telemetryArgs d)
      match d.err with
      | some e =>
        (some e, .mk d1 next1, f + 1,
          [openEv, .spanRecordError sid (errMsg e),
           .spanSetStatus sid .error (errMsg e), .spanEnd sid])
      | none =>
        match sys.startErr d.path with
        | some m =>
          (some (.spawnFailed m), .mk d1 next1, f + 1,
            [openEv, .spanRecordError sid m,
             .spanSetStatus sid .error m, .spanEnd sid])
        | none =>
          let pid := f + 1
          (none, .mk { d1 with process := some pid } next1, f + 2,
            [openEv, .procStart pid d.path d.args env1,
             .spanSetStatus sid .ok ""])

/-- `ExitCode()` of an optional `ProcessState`: `-1` when absent. -/
def exitCodeOf : Option Int → Int
  | none => -1
  | some k => k

/-- The deferred span finalisation of `Wait`: attach the exit-code attribute,
set the final status (recording the error first when there is one), end the
span.  A `none` span is the no-op span: nothing is observable. -/
def finishSpan (sid : Option Nat) (ps : Option Int) (e : Option Err) : List Event :=
  match sid with
  | none => []
  | some s =>
    [Event.spanSetExitCode s (exitCodeOf ps)] ++
      (match e with
       | none => [Event.spanSetStatus s .ok ""]
       | some er =>
         [Event.spanRecordError s (errMsg er),
          Event.spanSetStatus s .error (errMsg er)]) ++
      [Event.spanEnd s]

/-- A bare `span.End()` call. -/
def endSpan : Option Nat → List Event
  | none => []
  | some s => [Event.spanEnd s]

/-- The failed-upstream marking of the next stage's span: set error status
with the descriptive message, then end it. -/
def statusEnd (sid : Option Nat) (msg : String) : List Event :=
  match sid with
  | none => []
  | some s => [Event.spanSetStatus s .error msg, Event.spanEnd s]

/-- The message marking a downstream span when this stage failed: it names
this stage's rendered command and its exit code. -/
def failMsg (d : CmdData) (k : Int) : String :=
  "`" ++ goCmdString d ++ "` exited with code " ++ toString k

/-- The diagnostic log emitted when the underlying wait reports failure. -/
def waitLog (d : CmdData) (k : Int) : List Event :=
  if k = 0 then []
  else [Event.logDebug d.logger ("failed to execute `" ++ baseName d.path ++ "`")]

/-- The body of `Cmd.Wait`.  `fuel` is the chain length, making the recursion
on the (mutated, hence not structurally smaller) next stage structural; the
wrapper `wait` always supplies exactly `chainLen c`, so the fuel-exhausted
branch is unreachable.  The Go control flow, linearised with its deferred
calls in last-in-first-out order:
guards; read the span from the context; if a next stage exists, start it —
on failure end the span explicitly and return through the span-finalising
defer only (the closer defer was not yet registered); run the underlying
wait, log on failure, then: close the closer, then either wait on the next
stage (this stage succeeded) or mark the next stage's span as failed, then
finalise this stage's span with the aggregate error. -/
def waitGo (sys : Sys) : Nat → Cmd → Nat → OpRes
  | 0, c, f => (none, c, f, [])
  | fuel + 1, .mk d next, f =>
    match d.process with
    | none => (some .notStarted, .mk d next, f, [])
    | some pid =>
      match d.processState with
      | some _ => (some .alreadyWaited, .mk d next, f, [])
      | none =>
        let sid := d.ctx.span
        match next with
        | none =>
          let k := sys.exitCode d.path
          let werr : Option Err := if k = 0 then none else some (.exitError k)
          (werr, .mk { d with processState := some k } none, f,
            [Event.procWait pid k] ++ waitLog d k ++
              [Event.closeCloser d.closer] ++ finishSpan sid (some k) werr)
        | some n =>
          match start sys n f with
          | (some e, n1, f1, evs1) =>
            (some e, .mk d (some n1), f1,
              evs1 ++ endSpan sid ++ finishSpan sid d.processState (some e))
          | (none, n1, f1, evs1) =>
            let k := sys.exitCode d.path
            let d2 : CmdData := { d with processState := some k }
            let ownEvs :=
              [Event.procWait pid k] ++ waitLog d k ++ [Event.closeCloser d.closer]
            if k = 0 then
              match waitGo sys fuel n1 f1 with
              | (e2, n2, f2, evs2) =>
                (e2, .mk d2 (some n2), f2,
                  evs1 ++ ownEvs ++ evs2 ++ finishSpan sid (some k) e2)
            else
              (some (.exitError k), .mk d2 (some n1), f1,
                evs1 ++ ownEvs ++ statusEnd (ctxSpan n1) (failMsg d k) ++
                  finishSpan sid (some k) (some (.exitError k)))

/-- `Cmd.Wait`. -/
def wait (sys : Sys) (c : Cmd) (f : Nat) : OpRes :=
  waitGo sys (chainLen c) c f

/-- `Cmd.Run`: `Start`, and `Wait` only when `Start` succeeded. -/
def run (sys : Sys) (c : Cmd) (f : Nat) : OpRes :=
  match start sys c f with
  | (some e, c1, f1, evs1) => (some e, c1, f1, evs1)
  | (none, c1, f1, evs1) =>
    match wait sys c1 f1 with
    | (e2, c2, f2, evs2) => (e2, c2, f2, evs1 ++ evs2)

/-- The default tracer (`trace.NewNoopTracerProvider().Tracer("")`). -/
def noopTracer : Nat := 0

/-- The default logger (`ctxd.NoOpLogger`). -/
def noopLogger : Nat := 0

/-- The descriptor value built by `CommandContext` before options are applied:
`exec.CommandContext(ctx, filepath.Clean(name))` resolves the cleaned name —
on failure the path stays the name and the not-found error is deferred onto
the descriptor — plus the wrapper's defaults (fresh private stderr buffer,
no-op tracer, logger and closer, inherited environment).  The fresh counter
supplies the buffer identity. -/
def baseCmd (sys : Sys) (ctx : Ctx) (name : String) (f : Nat) : CmdData × Nat :=
  let cn := sys.clean name
  let resolved := sys.lookPath cn
  ({ path := resolved.getD cn
     args := [cn]
     env := sys.environ
     stdin := none
     stdout := none
     stderr := none
     err := match resolved with | some _ => none | none => some (.notFound cn)
     process := none
     processState := none
     ctx := ctx
     stdErrBuf := f
     closer := .nop
     tracer := noopTracer
     logger := noopLogger
     argsRedaction := none }, f + 1)

/-- The next node's data after the wiring pass hands down the current node's
stdout, stderr, environment, tracer and logger, and binds the pipe read end
as its stdin. -/
def wiredNext (d nd : CmdData) (pid : Nat) : CmdData :=
  { nd with stdout := d.stdout, stdin := some (.pipeReader pid),
            stderr := d.stderr, env := d.env,
            tracer := d.tracer, logger := d.logger }

/-- The current node's data after the wiring pass binds the pipe write end as
its stdout and registers it as the resource to release. -/
def wiredHead (d : CmdData) (pid : Nat) : CmdData :=
  { d with stdout := some (.pipeWriter pid), closer := .pipeWriter pid }

/-- The body of the wiring pass `setupCmd`, linearised with fuel equal to the
chain length (the recursion is on a node with rewritten data, hence not
structurally smaller; the wrapper always supplies exactly `chainLen c`).
A node carrying a construction error is reported (logged) and the pass stops
there.  For a node with an error-free next stage: create an anonymous pipe
(one fresh id for both ends), hand the current stdout/stderr/env/tracer/logger
down to the next node, bind the next node's stdin to the pipe's read end,
rebind this node's stdout to the write end and register it as the closer;
then descend. -/
def setupGo : Nat → Cmd → Nat → Option Err × Cmd × Nat × List Event
  | 0, c, f => (none, c, f, [])
  | fuel + 1, .mk d next, f =>
    match d.err with
    | some e =>
      (some e, .mk d next, f,
        [.logDebug d.logger (baseName d.path ++ " not found")])
    | none =>
      match next with
      | none => (none, .mk d none, f, [])
      | some (.mk nd nnext) =>
        if nd.err.isSome then
          match setupGo fuel (.mk nd nnext) f with
          | (e2, n2, f2, evs) => (e2, .mk d (some n2), f2, evs)
        else
          match setupGo fuel (.mk (wiredNext d nd f) nnext) (f + 1) with
          | (e2, n2, f2, evs) => (e2, .mk (wiredHead d f) (some n2), f2, evs)

/-- The wiring pass `setupCmd`. -/
def setupCmd (c : Cmd) (f : Nat) : Option Err × Cmd × Nat × List Event :=
  setupGo (chainLen c) c f

/-- The single-stage `CommandContext(c.ctx, name, WithArgs(args...))` call
made by `Pipe` when the current descriptor has no next stage: the base
descriptor, `WithArgs` (the resolved path as argument zero), and its own
wiring pass over the one-node chain. -/
def pipedCmd (sys : Sys) (ctx : Ctx) (name : String) (args : List String)
    (f : Nat) : Cmd × Nat × List Event :=
  let d0 := (baseCmd sys ctx name f).1
  let d1 : CmdData := { d0 with args := d0.path :: args }
  match setupCmd (.mk d1 none) (baseCmd sys ctx name f).2 with
  | (e, c2, f2, evs) => (setErr c2 e, f2, evs)

/-- The recursion of the `Pipe` option: append a new tail stage (inheriting
the context of the descriptor it lands on) when there is no next stage, else
apply the same option to the next stage. -/
def applyPipe (sys : Sys) (name : String) (args : List String) :
    Cmd → Nat → Cmd × Nat × List Event
  | .mk d none, f =>
    match pipedCmd sys d.ctx name args f with
    | (c2, f2, evs) => (.mk d (some c2), f2, evs)
  | .mk d (some n), f =>
    match applyPipe sys name args n f with
    | (n2, f2, evs) => (.mk d (some n2), f2, evs)

/-- The configuration options.  `withArgsRedaction` is modelled from the
spec (see `telemetryArgs`); the others are the options of `exec.go`. -/
inductive COpt where
  | withArgs (args : List String)
  | withEnv (key value : String)
  | withStdin (id : Nat)
  | withStdout (id : Nat)
  | withStderr (id : Nat)
  | withTracer (t : Nat)
  | withLogger (l : Nat)
  | withArgsRedaction (fn : List String → List String)
  | pipe (name : String) (args : List String)

/-- Apply one option to the descriptor chain. -/
def applyOpt (sys : Sys) (o : COpt) (c : Cmd) (f : Nat) : Cmd × Nat × List Event :=
  match o, c with
  | .withArgs as, .mk d next => (.mk { d with args := d.path :: as } next, f, [])
  | .withEnv k v, .mk d next =>
    (.mk { d with env := d.env ++ [k ++ "=" ++ v] } next, f, [])
  | .withStdin i, .mk d next => (.mk { d with stdin := some (.reader i) } next, f, [])
  | .withStdout i, .mk d next => (.mk { d with stdout := some (.writer i) } next, f, [])
  | .withStderr i, .mk d next => (.mk { d with stderr := some (.writer i) } next, f, [])
  | .withTracer t, .mk d next => (.mk { d with tracer := t } next, f, [])
  | .withLogger l, .mk d next => (.mk { d with logger := l } next, f, [])
  | .withArgsRedaction fn, .mk d next =>
    (.mk { d with argsRedaction := some fn } next, f, [])
  | .pipe name as, c => applyPipe sys name as c f

/-- Apply the options in order. -/
def applyOpts (sys : Sys) : List COpt → Cmd → Nat → Cmd × Nat × List Event
  | [], c, f => (c, f, [])
  | o :: os, c, f =>
    match applyOpt sys o c f with
    | (c1, f1, evs1) =>
      match applyOpts sys os c1 f1 with
      | (c2, f2, evs2) => (c2, f2, evs1 ++ evs2)

/-- `CommandContext`: the base descriptor, the options in order, then the
wiring pass, whose result becomes the externally visible `Err` of the head. -/
def commandContext (sys : Sys) (ctx : Ctx) (name : String) (opts : List COpt)
    (f : Nat) : Cmd × Nat × List Event :=
  match applyOpts sys opts (.mk (baseCmd sys ctx name f).1 none) (baseCmd sys ctx name f).2 with
  | (c1, f2, evs1) =>
    match setupCmd c1 f2 with
    | (e, c2, f3, evs2) => (setErr c2 e, f3, evs1 ++ evs2)

/-- `RunWithContext`: construct; if the descriptor carries an error, log it
and return the descriptor with that error without running; else `Run`. -/
def runWithContext (sys : Sys) (ctx : Ctx) (name : String) (opts : List COpt)
    (f : Nat) : OpRes :=
  match commandContext sys ctx name opts f with
  | (c, f1, evs1) =>
    match headData c |>.err with
    | some e =>
      (some e, c, f1, evs1 ++ [.logDebug (headData c).logger (errMsg e)])
    | none =>
      match run sys c f1 with
      | (e, c2, f2, evs2) => (e, c2, f2, evs1 ++ evs2)

/-- Every node of the chain is in the freshly constructed lifecycle state:
no live process handle and no exit information. -/
def unusedChainB : Cmd → Bool
  | .mk d none => d.process.isNone && d.processState.isNone
  | .mk d (some n) => d.process.isNone && d.processState.isNone && unusedChainB n

/-- `unusedChainB` on an optional chain. -/
def unusedNextB : Option Cmd → Bool
  | none => true
  | some c => unusedChainB c

/-- Every node of the chain is free of construction errors and its path
spawns without error. -/
def goodChainB (sys : Sys) : Cmd → Bool
  | .mk d none => d.err.isNone && (sys.startErr d.path).isNone
  | .mk d (some n) =>
    d.err.isNone && (sys.startErr d.path).isNone && goodChainB sys n

/-- `goodChainB` on an optional chain. -/
def goodNextB (sys : Sys) : Option Cmd → Bool
  | none => true
  | some c => goodChainB sys c

/-- Every node's underlying wait reports exit code zero. -/
def allExitZeroB (sys : Sys) : Cmd → Bool
  | .mk d none => sys.exitCode d.path == 0
  | .mk d (some n) => (sys.exitCode d.path == 0) && allExitZeroB sys n

/-- Every node carries exit information (has been waited on). -/
def allWaitedB : Cmd → Bool
  | .mk d none => d.processState.isSome
  | .mk d (some n) => d.processState.isSome && allWaitedB n

/-- Number of `spanEnd` events for a given span. -/
def endCount : List Event → Nat → Nat
  | [], _ => 0
  | e :: t, s => (if e = Event.spanEnd s then 1 else 0) + endCount t s

/-- The spans opened in a trace, in order. -/
def opensOf : List Event → List Nat
  | [] => []
  | .spanStart sid _ _ :: t => sid :: opensOf t
  | .spanSetStatus _ _ _ :: t => opensOf t
  | .spanRecordError _ _ :: t => opensOf t
  | .spanSetExitCode _ _ :: t => opensOf t
  | .spanEnd _ :: t => opensOf t
  | .procStart _ _ _ _ :: t => opensOf t
  | .procWait _ _ :: t => opensOf t
  | .closeCloser _ :: t => opensOf t
  | .logDebug _ _ :: t => opensOf t

/-- Whether an event is the spawn call of the given process. -/
def isProcStartOf (pid : Nat) : Event → Bool
  | .procStart p _ _ _ => p == pid
  | _ => false

/-- Whether an event is the wait-completion of the given process. -/
def isProcWaitOf (pid : Nat) : Event → Bool
  | .procWait p _ => p == pid
  | _ => false

/-- Whether an event is a spawn call of any process. -/
def isProcStartEv : Event → Bool
  | .procStart _ _ _ _ => true
  | _ => false

/-- Whether an event is a logger call. -/
def isLogDebugEv : Event → Bool
  | .logDebug _ _ => true
  | _ => false

/-- The node data `Pipe` appends as the new tail: the base descriptor for the
piped name under the inherited context, with the resolved path as argument
zero (`WithArgs`). -/
def pipedData (sys : Sys) (ctx : Ctx) (name : String) (args : List String)
    (f : Nat) : CmdData :=
  let d0 := (baseCmd sys ctx name f).1
  { d0 with args := d0.path :: args }

/-- The node data of an optional chain. -/
def optNodes : Option Cmd → List CmdData
  | none => []
  | some c => nodesData c

/-! ### Concrete fixtures used by witnesses and counterexamples -/

/-- A concrete system: `nf` is unresolvable, spawning `/bin/bad` fails with
message `boom`, `/bin/fail` exits with code 1, everything else succeeds. -/
def sysT : Sys :=
  { lookPath := fun n => if n = "nf" then none else some ("/bin/" ++ n)
    clean := id
    environ := ["HOME=/root"]
    startErr := fun p => if p = "/bin/bad" then some "boom" else none
    exitCode := fun p => if p = "/bin/fail" then 1 else 0 }

/-- A concrete freshly constructed node. -/
def sampleData : CmdData :=
  { path := "/bin/a"
    args := ["a", "x"]
    env := ["HOME=/root"]
    stdin := none
    stdout := none
    stderr := none
    err := none
    process := none
    processState := none
    ctx := ⟨none⟩
    stdErrBuf := 0
    closer := .nop
    tracer := 0
    logger := 0
    argsRedaction := none }

/-- The head node's data after a successful `Start` from counter `f`: stderr
duplicated into the capture buffer, span-bearing context, trace identifiers
appended to the environment, and the live process handle recorded. -/
def startedData (d : CmdData) (f : Nat) : CmdData :=
  { d with stderr := some (wiredStderr d), ctx := ⟨some f⟩,
           env := d.env ++ [traceEnvEntry f, spanEnvEntry f],
           process := some (f + 1) }

/-- The trace of a successful `Start` from counter `f`. -/
def startEvs (d : CmdData) (f : Nat) : List Event :=
  [.spanStart f "exec:run" (telemetryArgs d),
   .procStart (f + 1) d.path d.args (d.env ++ [traceEnvEntry f, spanEnvEntry f]),
   .spanSetStatus f .ok ""]

/-- `allExitZeroB` on an optional chain. -/
def allExitZeroNextB (sys : Sys) : Option Cmd → Bool
  | none => true
  | some c => allExitZeroB sys c

/-- `allWaitedB` on an optional chain. -/
def allWaitedNextB : Option Cmd → Bool
  | none => true
  | some c => allWaitedB c

/-- Number of releases of a given closer in a trace. -/
def closeCount : List Event → Closer → Nat
  | [], _ => 0
  | e :: t, cl => (if e = Event.closeCloser cl then 1 else 0) + closeCount t cl

/-- A concrete two-stage chain carrying a custom tracer and logger on the
head, before wiring. -/
def chainW : Cmd :=
  .mk { sampleData with tracer := 5, logger := 7 }
    (some (.mk { sampleData with path := "/bin/b" } none))

/-! ### Basic structural lemmas -/

theorem endCount_append (a b : List Event) (s : Nat) :
    endCount (a ++ b) s = endCount a s + endCount b s := by
  induction a with
  | nil => simp [endCount]
  | cons e t ih => simp [endCount, ih]; omega

theorem opensOf_append (a b : List Event) :
    opensOf (a ++ b) = opensOf a ++ opensOf b := by
  induction a with
  | nil => rfl
  | cons e t ih => cases e <;> simp [opensOf, ih]

theorem chainLen_pos (c : Cmd) : 1 ≤ chainLen c := by
  cases c with
  | mk d next => cases next <;> simp [chainLen]

@[simp] theorem chainLen_withCtx (ctx : Ctx) (c : Cmd) :
    chainLen (withCtx ctx c) = chainLen c := by
  cases c with
  | mk d next => cases next <;> simp [withCtx, chainLen]

@[simp] theorem chainLen_mk_mapCtx (d : CmdData) (ctx : Ctx) (next : Option Cmd) :
    chainLen (.mk d (next.map (withCtx ctx))) = chainLen (.mk d next) := by
  cases next <;> simp [chainLen]

@[simp] theorem unusedChainB_withCtx (ctx : Ctx) (c : Cmd) :
    unusedChainB (withCtx ctx c) = unusedChainB c := by
  cases c with
  | mk d next => cases next <;> simp [withCtx, unusedChainB]

@[simp] theorem unusedNextB_mapCtx (ctx : Ctx) (next : Option Cmd) :
    unusedNextB (next.map (withCtx ctx)) = unusedNextB next := by
  cases next <;> simp [unusedNextB]

@[simp] theorem goodChainB_withCtx (sys : Sys) (ctx : Ctx) (c : Cmd) :
    goodChainB sys (withCtx ctx c) = goodChainB sys c := by
  cases c with
  | mk d next => cases next <;> simp [withCtx, goodChainB]

@[simp] theorem goodNextB_mapCtx (sys : Sys) (ctx : Ctx) (next : Option Cmd) :
    goodNextB sys (next.map (withCtx ctx)) = goodNextB sys next := by
  cases next <;> simp [goodNextB]

@[simp] theorem closersOf_withCtx (ctx : Ctx) (c : Cmd) :
    closersOf (withCtx ctx c) = closersOf c := by
  cases c with
  | mk d next => cases next <;> simp [withCtx, closersOf]

@[simp] theorem closersOf_mk_mapCtx (d : CmdData) (ctx : Ctx) (next : Option Cmd) :
    closersOf (.mk d (next.map (withCtx ctx))) = closersOf (.mk d next) := by
  cases next <;> simp [closersOf]

/-! ### Claim C2: lifecycle guards -/

/-- Claim C2: calling `Start` on a descriptor with a live process handle
returns the error `exec: already started` and leaves the descriptor, the
counter and the trace untouched; calling `Wait` with no process handle
returns `exec: not started`; calling `Wait` with exit information present
returns `exec: Wait was already called`; the two `Wait` guard conditions are
mutually exclusive, the three error values carry the exact observable
strings, and none of the three failures opens a span or has any other side
effect. -/
theorem lifecycle_guards (sys : Sys) :
    (∀ d next f pid, d.process = some pid →
      start sys (.mk d next) f = (some .alreadyStarted, .mk d next, f, [])) ∧
    (∀ d next f, d.process = none →
      wait sys (.mk d next) f = (some .notStarted, .mk d next, f, [])) ∧
    (∀ d next f pid k, d.process = some pid → d.processState = some k →
      wait sys (.mk d next) f = (some .alreadyWaited, .mk d next, f, [])) ∧
    (∀ d : CmdData,
      ¬(d.process = none ∧ ∃ pid k, d.process = some pid ∧ d.processState = some k)) ∧
    Err.notStarted ≠ Err.alreadyWaited ∧
    errMsg .alreadyStarted = "exec: already started" ∧
    errMsg .notStarted = "exec: not started" ∧
    errMsg .alreadyWaited = "exec: Wait was already called" := by
  refine ⟨?_, ?_, ?_, ?_, by decide, rfl, rfl, rfl⟩
  · intro d next f pid h
    simp [start, h]
  · intro d next f h
    cases next <;> simp [wait, chainLen, waitGo, h]
  · intro d next f pid k h hk
    cases next <;> simp [wait, chainLen, waitGo, h, hk]
  · rintro d ⟨h, pid, k, h2, -⟩
    rw [h] at h2
    exact Option.noConfusion h2

/-- Witness for `lifecycle_guards` at concrete inputs. -/
theorem lifecycle_guards_witness :
    start sysT (.mk { sampleData with process := some 7 } none) 0 =
      (some .alreadyStarted, .mk { sampleData with process := some 7 } none, 0, []) ∧
    wait sysT (.mk sampleData none) 0 =
      (some .notStarted, .mk sampleData none, 0, []) ∧
    wait sysT (.mk { sampleData with process := some 7, processState := some 0 } none) 0 =
      (some .alreadyWaited,
        .mk { sampleData with process := some 7, processState := some 0 } none, 0, []) :=
  ⟨(lifecycle_guards sysT).1 _ none 0 7 rfl,
   (lifecycle_guards sysT).2.1 _ none 0 rfl,
   (lifecycle_guards sysT).2.2.1 _ none 0 7 0 rfl rfl⟩

/-! ### Claim C10: a failed spawn leaves Start's mutations behind -/

/-- Claim C10: when `Start` passes the already-started guard but the spawn
primitive fails, the error is returned while the descriptor keeps the
mutations made before the spawn: the `TRACE_ID`/`SPAN_ID` entries stay
appended to the environment, the stderr sink stays rewired to duplicate into
the private capture buffer, the stored context is the span-bearing one, and
the next stage's context was overwritten; no process handle is recorded, so a
retry passes the guard again, appends a second pair of trace entries and
wraps the stderr sink once more.  Only the already-started branch is
side-effect-free. -/
theorem start_failure_leaves_mutations (sys : Sys) (d : CmdData) (next : Option Cmd)
    (f : Nat) (m : String)
    (hp : d.process = none) (he : d.err = none) (hs : sys.startErr d.path = some m) :
    start sys (.mk d next) f =
      (some (.spawnFailed m),
        .mk { d with stderr := some (wiredStderr d), ctx := ⟨some f⟩,
                     env := d.env ++ [traceEnvEntry f, spanEnvEntry f] }
          (next.map (withCtx ⟨some f⟩)),
        f + 1,
        [.spanStart f "exec:run" (telemetryArgs d),
         .spanRecordError f m, .spanSetStatus f .error m, .spanEnd f]) ∧
    (let d1 : CmdData :=
      { d with stderr := some (wiredStderr d), ctx := ⟨some f⟩,
               env := d.env ++ [traceEnvEntry f, spanEnvEntry f] }
     headData (resCmd (start sys (.mk d1 (next.map (withCtx ⟨some f⟩))) (f + 1))) =
      { d1 with stderr := some (.multi (.buf d.stdErrBuf) (wiredStderr d)),
                ctx := ⟨some (f + 1)⟩,
                env := d1.env ++ [traceEnvEntry (f + 1), spanEnvEntry (f + 1)] }) ∧
    (∀ d2 next2 f2 pid, d2.process = some pid →
      start sys (.mk d2 next2) f2 = (some .alreadyStarted, .mk d2 next2, f2, [])) := by
  refine ⟨by simp [start, hp, he, hs], ?_, ?_⟩
  · simp [start, hp, he, hs, resCmd, headData, wiredStderr]
  · intro d2 next2 f2 pid h
    simp [start, h]

/-- Witness for `start_failure_leaves_mutations` at concrete inputs. -/
theorem start_failure_leaves_mutations_witness :
    resErr (start sysT (.mk { sampleData with path := "/bin/bad" } none) 0) =
      some (.spawnFailed "boom") := by
  have h := start_failure_leaves_mutations sysT { sampleData with path := "/bin/bad" }
    none 0 "boom" rfl rfl rfl
  rw [resErr, h.1]

/-! ### Claim C7: argument redaction affects telemetry only -/

/-- Claim C7 (modelled from the spec, see `telemetryArgs`): when a redaction
transform is supplied, the argument-list attribute on the span opened by
`Start` is the transform applied to the arguments, while the spawn primitive
receives the untransformed argument list. -/
theorem args_redaction_telemetry (sys : Sys) (d : CmdData) (next : Option Cmd)
    (f : Nat) (fn : List String → List String)
    (hp : d.process = none) (hr : d.argsRedaction = some fn)
    (he : d.err = none) (hs : sys.startErr d.path = none) :
    resEvents (start sys (.mk d next) f) =
      [.spanStart f "exec:run" (fn d.args),
       .procStart (f + 1) d.path d.args (d.env ++ [traceEnvEntry f, spanEnvEntry f]),
       .spanSetStatus f .ok ""] := by
  simp [start, resEvents, hp, he, hs, telemetryArgs, hr]

/-- Witness for `args_redaction_telemetry` at concrete inputs: the span
attribute is the redacted list, the spawned arguments are the real ones. -/
theorem args_redaction_telemetry_witness :
    resEvents (start sysT
      (.mk { sampleData with argsRedaction := some fun _ => ["redacted"] } none) 0) =
      [.spanStart 0 "exec:run" ["redacted"],
       .procStart 1 "/bin/a" ["a", "x"] ["HOME=/root", traceEnvEntry 0, spanEnvEntry 0],
       .spanSetStatus 0 .ok ""] := by
  exact args_redaction_telemetry sysT _ none 0 (fun _ => ["redacted"]) rfl rfl rfl rfl

/-! ### Construction invariants -/

/-- `Pipe` never touches the head node's data. -/
theorem applyPipe_headData (sys : Sys) (name : String) (as : List String) :
    ∀ c f, headData (applyPipe sys name as c f).1 = headData c := by
  intro c f
  cases c with
  | mk d next =>
    cases next with
    | none =>
      rcases h : pipedCmd sys d.ctx name as f with ⟨c2, f2, evs⟩
      simp [applyPipe, h, headData]
    | some n =>
      rcases h : applyPipe sys name as n f with ⟨n2, f2, evs⟩
      simp [applyPipe, h, headData]

/-- Option application preserves the head node's path and error, and keeps
the path as argument zero. -/
theorem applyOpt_headInv (sys : Sys) (o : COpt) (c : Cmd) (f : Nat)
    (h1 : (headData c).args.head? = some (headData c).path) :
    (headData (applyOpt sys o c f).1).path = (headData c).path ∧
    (headData (applyOpt sys o c f).1).err = (headData c).err ∧
    (headData (applyOpt sys o c f).1).args.head? = some (headData c).path := by
  cases c with
  | mk d next =>
    cases o with
    | pipe name as =>
      rw [show applyOpt sys (.pipe name as) (.mk d next) f =
            applyPipe sys name as (.mk d next) f from rfl]
      rw [applyPipe_headData]
      exact ⟨rfl, rfl, h1⟩
    | _ => simp_all [applyOpt, headData]

/-- Iterated option application preserves the head node's path and error, and
keeps the path as argument zero. -/
theorem applyOpts_headInv (sys : Sys) :
    ∀ (os : List COpt) (c : Cmd) (f : Nat),
    (headData c).args.head? = some (headData c).path →
    (headData (applyOpts sys os c f).1).path = (headData c).path ∧
    (headData (applyOpts sys os c f).1).err = (headData c).err ∧
    (headData (applyOpts sys os c f).1).args.head? = some (headData c).path := by
  intro os
  induction os with
  | nil => intro c f h; simp [applyOpts, h]
  | cons o rest ih =>
    intro c f h
    rcases h1 : applyOpt sys o c f with ⟨c1, f1, evs1⟩
    have hstep := applyOpt_headInv sys o c f h
    rw [h1] at hstep
    rcases h2 : applyOpts sys rest c1 f1 with ⟨c2, f2, evs2⟩
    have hrest := ih c1 f1 (by rw [hstep.2.2, hstep.1])
    rw [h2] at hrest
    simp only [applyOpts, h1, h2]
    refine ⟨?_, ?_, ?_⟩
    · simpa [hstep.1] using hrest.1
    · simpa [hstep.2.1] using hrest.2.1
    · simpa [hstep.1] using hrest.2.2

/-- The wiring pass on a chain whose head carries a construction error
reports that error, logs, and leaves the chain untouched. -/
theorem setupCmd_err_some (d : CmdData) (next : Option Cmd) (e : Err) (f : Nat)
    (h : d.err = some e) :
    setupCmd (.mk d next) f =
      (some e, .mk d next, f,
        [.logDebug d.logger (baseName d.path ++ " not found")]) := by
  cases next <;> simp [setupCmd, chainLen, setupGo, h]

/-- Chain induction: `Cmd` is a nested inductive, so induction goes through
the chain length. -/
theorem cmd_ind (P : Cmd → Prop) (h1 : ∀ d, P (.mk d none))
    (h2 : ∀ d n, P n → P (.mk d (some n))) : ∀ c, P c := by
  have key : ∀ k c, chainLen c ≤ k → P c := by
    intro k
    induction k with
    | zero =>
      intro c hc
      exact absurd hc (by have := chainLen_pos c; omega)
    | succ k ih =>
      intro c hc
      cases c with
      | mk d next =>
        cases next with
        | none => exact h1 d
        | some n =>
          exact h2 d n (ih n (by simp [chainLen] at hc; omega))
  exact fun c => key (chainLen c) c le_rfl

/-- All events of the wiring pass are logger calls. -/
theorem setupGo_events_log :
    ∀ fuel (c : Cmd) f, ∀ ev ∈ (setupGo fuel c f).2.2.2, isLogDebugEv ev = true := by
  intro fuel
  induction fuel with
  | zero => intro c f ev h; simp [setupGo] at h
  | succ fuel ih =>
    intro c f ev h
    cases c with
    | mk d next =>
      simp only [setupGo] at h
      split at h
      · simp at h
        simp [h, isLogDebugEv]
      · split at h
        · simp at h
        · split at h
          · simp at h
            exact ih _ _ ev h
          · simp at h
            exact ih _ _ ev h

/-- All events of the one-stage construction made by `Pipe` are logger
calls. -/
theorem pipedCmd_events_log (sys : Sys) (ctx : Ctx) (name : String)
    (as : List String) (f : Nat) :
    ∀ ev ∈ (pipedCmd sys ctx name as f).2.2, isLogDebugEv ev = true := by
  intro ev h
  rcases hb : baseCmd sys ctx name f with ⟨d0, f1⟩
  unfold pipedCmd at h
  rw [hb] at h
  simp only at h
  rcases hs : setupCmd (.mk { d0 with args := d0.path :: as } none) f1 with
    ⟨e, c2, f2, evs⟩
  rw [hs] at h
  simp at h
  exact setupGo_events_log _ _ _ ev
    (by rw [show setupGo _ _ _ = (e, c2, f2, evs) from hs]; exact h)

/-- All events of `Pipe` application are logger calls. -/
theorem applyPipe_events_log (sys : Sys) (name : String) (as : List String) :
    ∀ (c : Cmd) f, ∀ ev ∈ (applyPipe sys name as c f).2.2, isLogDebugEv ev = true := by
  intro c
  induction c using cmd_ind with
  | h1 d =>
    intro f ev h
    rcases hp : pipedCmd sys d.ctx name as f with ⟨c2, f2, evs⟩
    simp [applyPipe, hp] at h
    exact pipedCmd_events_log sys d.ctx name as f ev (by rw [hp]; exact h)
  | h2 d n ihn =>
    intro f ev h
    rcases hp : applyPipe sys name as n f with ⟨n2, f2, evs⟩
    simp [applyPipe, hp] at h
    exact ihn f ev (by rw [hp]; exact h)

/-- All events of option application are logger calls. -/
theorem applyOpt_events_log (sys : Sys) (o : COpt) (c : Cmd) (f : Nat) :
    ∀ ev ∈ (applyOpt sys o c f).2.2, isLogDebugEv ev = true := by
  intro ev h
  cases c with
  | mk d next =>
    cases o with
    | pipe name as => exact applyPipe_events_log sys name as (.mk d next) f ev h
    | _ => simp [applyOpt] at h

/-- All events of iterated option application are logger calls. -/
theorem applyOpts_events_log (sys : Sys) :
    ∀ (os : List COpt) (c : Cmd) f,
    ∀ ev ∈ (applyOpts sys os c f).2.2, isLogDebugEv ev = true := by
  intro os
  induction os with
  | nil => intro c f ev h; simp [applyOpts] at h
  | cons o rest ih =>
    intro c f ev h
    rcases h1 : applyOpt sys o c f with ⟨c1, f1, evs1⟩
    rcases h2 : applyOpts sys rest c1 f1 with ⟨c2, f2, evs2⟩
    simp [applyOpts, h1, h2] at h
    rcases h with h | h
    · exact applyOpt_events_log sys o c f ev (by rw [h1]; exact h)
    · exact ih c1 f1 ev (by rw [h2]; exact h)

/-- All events of `CommandContext` are logger calls: construction spawns no
process and touches no span. -/
theorem commandContext_events_log (sys : Sys) (ctx : Ctx) (name : String)
    (opts : List COpt) (f : Nat) :
    ∀ ev ∈ (commandContext sys ctx name opts f).2.2, isLogDebugEv ev = true := by
  intro ev h
  rcases hb : baseCmd sys ctx name f with ⟨d0, f1⟩
  unfold commandContext at h
  rw [hb] at h
  simp only at h
  rcases h1 : applyOpts sys opts (.mk d0 none) f1 with ⟨c1, f2, evs1⟩
  rw [h1] at h
  rcases h2 : setupCmd c1 f2 with ⟨e, c2, f3, evs2⟩
  rw [h2] at h
  simp at h
  rcases h with h | h
  · exact applyOpts_events_log sys opts _ _ ev (by rw [h1]; exact h)
  · exact setupGo_events_log _ _ _ ev
      (by rw [show setupGo _ _ _ = (e, c2, f3, evs2) from h2]; exact h)

/-- A logger call is not a spawn call. -/
theorem isLogDebugEv_not_procStart (ev : Event) (h : isLogDebugEv ev = true) :
    isProcStartEv ev = false := by
  cases ev <;> simp_all [isLogDebugEv, isProcStartEv]

/-! ### Claim C5: resolution failure is deferred onto the descriptor -/

/-- Claim C5: when resolution of the (cleaned) name fails, construction still
returns a descriptor; the not-found sentinel is stored as its deferred error;
the descriptor stays usable for introspection — its argument list still heads
with the requested name and its rendering is the plain join of the argument
list; and `RunWithContext` on it returns the same descriptor together with
the sentinel error while its trace contains no spawn call. -/
theorem deferred_resolution_error (sys : Sys) (ctx : Ctx) (name : String)
    (opts : List COpt) (f : Nat)
    (h : sys.lookPath (sys.clean name) = none) :
    (headData (commandContext sys ctx name opts f).1).err =
      some (.notFound (sys.clean name)) ∧
    (headData (commandContext sys ctx name opts f).1).args.head? =
      some (sys.clean name) ∧
    goCmdString (headData (commandContext sys ctx name opts f).1) =
      String.intercalate " " (headData (commandContext sys ctx name opts f).1).args ∧
    resErr (runWithContext sys ctx name opts f) = some (.notFound (sys.clean name)) ∧
    resCmd (runWithContext sys ctx name opts f) = (commandContext sys ctx name opts f).1 ∧
    (∀ ev ∈ resEvents (runWithContext sys ctx name opts f), isProcStartEv ev = false) := by
  have hb : baseCmd sys ctx name f =
      ({ path := sys.clean name, args := [sys.clean name], env := sys.environ,
         stdin := none, stdout := none, stderr := none,
         err := some (.notFound (sys.clean name)), process := none,
         processState := none, ctx := ctx, stdErrBuf := f, closer := .nop,
         tracer := noopTracer, logger := noopLogger, argsRedaction := none }, f + 1) := by
    simp [baseCmd, h]
  rcases ha : applyOpts sys opts
      (.mk (baseCmd sys ctx name f).1 none) (baseCmd sys ctx name f).2 with ⟨c1, f2, evs1⟩
  have hinv := applyOpts_headInv sys opts
    (.mk (baseCmd sys ctx name f).1 none) (baseCmd sys ctx name f).2
    (by rw [hb]; simp [headData])
  rw [ha, hb] at hinv
  simp only [headData] at hinv
  rcases c1 with ⟨d1, next1⟩
  simp only [headData] at hinv
  have herr1 : d1.err = some (.notFound (sys.clean name)) := hinv.2.1
  have hsetup := setupCmd_err_some d1 next1 _ f2 herr1
  have hcc : commandContext sys ctx name opts f =
      (.mk { d1 with err := some (.notFound (sys.clean name)) } next1, f2,
        evs1 ++ [.logDebug d1.logger (baseName d1.path ++ " not found")]) := by
    unfold commandContext
    rw [ha]
    simp only
    rw [hsetup]
    simp [setErr]
  have hhd : headData (commandContext sys ctx name opts f).1 =
      { d1 with err := some (.notFound (sys.clean name)) } := by
    rw [hcc]; simp [headData]
  have hrun : runWithContext sys ctx name opts f =
      (some (.notFound (sys.clean name)),
        .mk { d1 with err := some (.notFound (sys.clean name)) } next1, f2,
        (evs1 ++ [.logDebug d1.logger (baseName d1.path ++ " not found")]) ++
          [.logDebug d1.logger (errMsg (.notFound (sys.clean name)))]) := by
    unfold runWithContext
    rw [hcc]
    simp [headData]
  refine ⟨by rw [hhd], ?_, ?_, ?_, ?_, ?_⟩
  · rw [hhd]
    simpa using hinv.2.2
  · rw [hhd]
    simp [goCmdString]
  · simp [resErr, hrun]
  · simp [resCmd, hrun, hcc]
  · intro ev hev
    rw [resEvents, hrun] at hev
    simp at hev
    rcases hev with hev | hev | hev
    · refine isLogDebugEv_not_procStart ev ?_
      refine commandContext_events_log sys ctx name opts f ev ?_
      rw [hcc]
      simp
      exact Or.inl hev
    · rw [hev]; rfl
    · rw [hev]; rfl

/-- Witness for `deferred_resolution_error` at concrete inputs: `nf` does not
resolve under `sysT`. -/
theorem deferred_resolution_error_witness :
    (headData (commandContext sysT ⟨none⟩ "nf" [.withArgs ["hello world"]] 0).1).err =
      some (.notFound "nf") ∧
    resErr (runWithContext sysT ⟨none⟩ "nf" [.withArgs ["hello world"]] 0) =
      some (.notFound "nf") := by
  have h := deferred_resolution_error sysT ⟨none⟩ "nf" [.withArgs ["hello world"]] 0 rfl
  exact ⟨h.1, h.2.2.2.1⟩

/-! ### Claim C8: Pipe extends the chain -/

theorem chainLen_eq_nodes (c : Cmd) : chainLen c = (nodesData c).length := by
  induction c using cmd_ind with
  | h1 d => simp [chainLen, nodesData]
  | h2 d n ih => simp [chainLen, nodesData, ih]

/-- The one-stage construction made by `Pipe` yields exactly the appended
node data, and consumes one fresh identifier (the new stage's buffer). -/
theorem pipedCmd_shape (sys : Sys) (ctx : Ctx) (name : String) (as : List String)
    (f : Nat) :
    ∃ evs, pipedCmd sys ctx name as f =
      (.mk (pipedData sys ctx name as f) none, f + 1, evs) := by
  rcases hl : sys.lookPath (sys.clean name) with _ | p
  · exact ⟨[.logDebug noopLogger (baseName (sys.clean name) ++ " not found")],
      by simp [pipedCmd, pipedData, baseCmd, hl, setupCmd, chainLen, setupGo, setErr]⟩
  · exact ⟨[],
      by simp [pipedCmd, pipedData, baseCmd, hl, setupCmd, chainLen, setupGo, setErr]⟩

/-- Applying `Pipe` appends exactly one node at the tail, inheriting the
tail's context, and leaves every existing node's data unchanged. -/
theorem applyPipe_nodes (sys : Sys) (name : String) (as : List String) :
    ∀ (c : Cmd) (f : Nat),
    nodesData (applyPipe sys name as c f).1 =
      nodesData c ++ [pipedData sys (lastData c).ctx name as f] ∧
    (applyPipe sys name as c f).2.1 = f + 1 := by
  intro c
  induction c using cmd_ind with
  | h1 d =>
    intro f
    rcases pipedCmd_shape sys d.ctx name as f with ⟨evs, hp⟩
    have ha : applyPipe sys name as (.mk d none) f =
        (.mk d (some (.mk (pipedData sys d.ctx name as f) none)), f + 1, evs) := by
      show (match pipedCmd sys d.ctx name as f with
            | (c2, f2, evs) => ((.mk d (some c2) : Cmd), f2, evs)) = _
      rw [hp]
    rw [ha]
    simp [nodesData, lastData]
  | h2 d n ihn =>
    intro f
    rcases hp : applyPipe sys name as n f with ⟨n2, f2, evs⟩
    have hn := ihn f
    rw [hp] at hn
    simp only at hn
    simp [applyPipe, hp, nodesData, lastData]
    exact ⟨hn.1, hn.2⟩

/-- Claim C8: a pipe-append option applied to a descriptor with no next stage
creates a new tail inheriting that descriptor's context; applied to a
descriptor with a next stage it recurses onto it; so it always appends
exactly one node after the existing ones (never replacing a stage — the
existing node data are unchanged), and `n` pipe-append options grow a chain
by exactly `n` stages.  The chain stays a linear acyclic list by construction
of the `Cmd` type. -/
theorem pipe_appends_chain (sys : Sys) :
    (∀ (name : String) (as : List String) (c : Cmd) (f : Nat),
      nodesData (applyPipe sys name as c f).1 =
        nodesData c ++ [pipedData sys (lastData c).ctx name as f]) ∧
    (∀ (ps : List (String × List String)) (c : Cmd) (f : Nat),
      chainLen (applyOpts sys (ps.map fun p => COpt.pipe p.1 p.2) c f).1 =
        chainLen c + ps.length) := by
  refine ⟨fun name as c f => (applyPipe_nodes sys name as c f).1, ?_⟩
  intro ps
  induction ps with
  | nil => intro c f; simp [applyOpts]
  | cons p rest ih =>
    intro c f
    rcases h1 : applyOpt sys (.pipe p.1 p.2) c f with ⟨c1, f1, evs1⟩
    rcases h2 : applyOpts sys (rest.map fun q => COpt.pipe q.1 q.2) c1 f1 with
      ⟨c2, f2, evs2⟩
    have hstep : chainLen c1 = chainLen c + 1 := by
      have hn := (applyPipe_nodes sys p.1 p.2 c f).1
      have happ : applyPipe sys p.1 p.2 c f = (c1, f1, evs1) := h1
      rw [happ] at hn
      simp only at hn
      rw [chainLen_eq_nodes, chainLen_eq_nodes, hn]
      simp
    have hrest := ih c1 f1
    rw [h2] at hrest
    simp only at hrest
    simp [applyOpts, h1, h2]
    omega

/-! ### Claim C6: tracer and logger propagation -/

@[simp] theorem nodesData_mk (d : CmdData) (next : Option Cmd) :
    nodesData (.mk d next) = d :: optNodes next := by
  cases next <;> simp [nodesData, optNodes]

theorem chainLen_mk_ignore (a b : CmdData) (next : Option Cmd) :
    chainLen (.mk a next) = chainLen (.mk b next) := by
  cases next <;> simp [chainLen]

/-- The wiring pass copies the head's tracer and logger down the chain
exactly as far as the error-free prefix reaches: if every node up to index
`i` is free of construction errors, node `i` of the output carries the head's
tracer and logger. -/
theorem setupGo_shares_head_config :
    ∀ fuel (c : Cmd) (f : Nat), fuel = chainLen c →
    ∀ i, (∀ j, j ≤ i → ((nodesData c).get? j).map (fun x => x.err.isNone) = some true) →
    ((nodesData (setupGo fuel c f).2.1).get? i).map (fun x => x.tracer) =
      some (headData c).tracer ∧
    ((nodesData (setupGo fuel c f).2.1).get? i).map (fun x => x.logger) =
      some (headData c).logger := by
  intro fuel
  induction fuel with
  | zero =>
    intro c f hf i h
    exact absurd hf (by have := chainLen_pos c; omega)
  | succ fuel ih =>
    intro c f hf i h
    obtain ⟨d, next⟩ := c
    rcases herr : d.err with _ | e
    · rcases next with _ | ⟨ndd, nnext⟩
      · rcases i with _ | i
        · simp [setupGo, herr, nodesData, optNodes, headData]
        · have := h (i + 1) le_rfl
          simp [nodesData, optNodes] at this
      · have hsplit : optNodes (some (Cmd.mk ndd nnext)) = ndd :: optNodes nnext := by
          simp [optNodes]
        rcases hndd : ndd.err.isSome with _ | _
        · rcases heq : setupGo fuel (.mk (wiredNext d ndd f) nnext) (f + 1) with
            ⟨e2, n2, f2, evs⟩
          have hout : (setupGo (fuel + 1) (.mk d (some (.mk ndd nnext))) f).2.1 =
              .mk (wiredHead d f) (some n2) := by
            simp only [setupGo, herr, hndd]
            rw [heq]
            simp
          rcases i with _ | i
          · rw [hout]
            simp [headData, wiredHead]
          · rw [hout]
            have hfuel : fuel = chainLen (.mk (wiredNext d ndd f) nnext) := by
              rw [chainLen_mk_ignore _ ndd nnext]
              have h2 : chainLen (.mk d (some (.mk ndd nnext))) =
                  chainLen (.mk ndd nnext) + 1 := by
                simp [chainLen]
              omega
            have hh : ∀ j, j ≤ i →
                ((nodesData (.mk (wiredNext d ndd f) nnext)).get? j).map
                    (fun x => x.err.isNone) = some true := by
              intro j hj
              have hj1 := h (j + 1) (by omega)
              rw [nodesData_mk, List.get?_cons_succ, hsplit] at hj1
              rw [nodesData_mk]
              rcases j with _ | j
              · rw [List.get?_cons_zero] at hj1
                rw [List.get?_cons_zero]
                simpa [wiredNext] using hj1
              · rw [List.get?_cons_succ] at hj1
                rw [List.get?_cons_succ]
                exact hj1
            have hres := ih (.mk (wiredNext d ndd f) nnext) (f + 1) hfuel i hh
            rw [heq] at hres
            simp only [headData, wiredNext, nodesData_mk] at hres
            rw [nodesData_mk, List.get?_cons_succ]
            simpa [headData, wiredHead, optNodes] using hres
        · rcases i with _ | i
          · rcases heq : setupGo fuel (.mk ndd nnext) f with ⟨e2, n2, f2, evs⟩
            have hout : (setupGo (fuel + 1) (.mk d (some (.mk ndd nnext))) f).2.1 =
                .mk d (some n2) := by
              simp only [setupGo, herr, hndd]
              rw [heq]
              simp
            rw [hout]
            simp [headData]
          · have h1 := h 1 (by omega)
            rw [nodesData_mk, List.get?_cons_succ, hsplit, List.get?_cons_zero] at h1
            simp at h1
            rw [h1] at hndd
            simp at hndd
    · have h0 := h 0 (by omega)
      simp [nodesData_mk, herr] at h0

/-- Claim C6 (corrected): after the wiring pass, the head's tracer and logger
are shared exactly by the nodes of the error-free prefix of the chain: node
`i` carries them whenever every node up to index `i` is free of construction
errors.  The original claim fails for nodes after a node carrying a
construction error: the pass stops at such a node, so later nodes keep their
own construction-time configuration (see `tracer_not_propagated_cex`). -/
theorem tracer_logger_prefix (c : Cmd) (f : Nat) (i : Nat)
    (h : ∀ j, j ≤ i → ((nodesData c).get? j).map (fun x => x.err.isNone) = some true) :
    ((nodesData (setupCmd c f).2.1).get? i).map (fun x => x.tracer) =
      some (headData c).tracer ∧
    ((nodesData (setupCmd c f).2.1).get? i).map (fun x => x.logger) =
      some (headData c).logger :=
  setupGo_shares_head_config (chainLen c) c f rfl i h

/-- Witness for `tracer_logger_prefix` at a concrete error-free two-stage
chain: the wired second node carries the head's tracer 5 and logger 7. -/
theorem tracer_logger_prefix_witness :
    ((nodesData (setupCmd chainW 0).2.1).get? 1).map (fun x => x.tracer) = some 5 ∧
    ((nodesData (setupCmd chainW 0).2.1).get? 1).map (fun x => x.logger) = some 7 := by
  have h := tracer_logger_prefix chainW 0 1 (by intro j hj; interval_cases j <;> rfl)
  exact ⟨h.1, h.2⟩

/-- Counterexample to claim C6 as stated: in the chain `a | nf | c` built
with a custom tracer 5 and logger 7 on the head, `nf` carries a construction
error; after the wiring pass the third node still has the default tracer 0
and logger 0, not the head's. -/
theorem tracer_not_propagated_cex :
    ((nodesData (commandContext sysT ⟨none⟩ "a"
        [.withTracer 5, .withLogger 7, .pipe "nf" [], .pipe "c" []] 0).1).get? 2).map
      (fun x => (x.tracer, x.logger)) = some (0, 0) ∧
    (headData (commandContext sysT ⟨none⟩ "a"
        [.withTracer 5, .withLogger 7, .pipe "nf" [], .pipe "c" []] 0).1).tracer = 5 ∧
    (headData (commandContext sysT ⟨none⟩ "a"
        [.withTracer 5, .withLogger 7, .pipe "nf" [], .pipe "c" []] 0).1).logger = 7 := by
  refine ⟨?_, ?_, ?_⟩ <;> rfl

/-! ### Shape lemmas for Start and Wait -/

/-- A `Start` that passes the guard and spawns successfully. -/
theorem start_success (sys : Sys) (d : CmdData) (next : Option Cmd) (f : Nat)
    (hp : d.process = none) (he : d.err = none) (hs : sys.startErr d.path = none) :
    start sys (.mk d next) f =
      (none, .mk (startedData d f) (next.map (withCtx ⟨some f⟩)), f + 2,
        startEvs d f) := by
  simp [start, hp, he, hs, startedData, startEvs]

/-- `Start` preserves the chain length. -/
theorem chainLen_start (sys : Sys) (c : Cmd) (f : Nat) :
    chainLen (resCmd (start sys c f)) = chainLen c := by
  obtain ⟨d, next⟩ := c
  rcases hp : d.process with _ | pid
  · rcases he : d.err with _ | e
    · rcases hs : sys.startErr d.path with _ | m
      · simp [start, hp, he, hs, resCmd]
        exact chainLen_mk_ignore _ d next
      · simp [start, hp, he, hs, resCmd]
        exact chainLen_mk_ignore _ d next
    · simp [start, hp, he, resCmd]
      exact chainLen_mk_ignore _ d next
  · simp [start, hp, resCmd]

/-- `Start` preserves the head's exit information. -/
theorem start_headData_processState (sys : Sys) (c : Cmd) (f : Nat) :
    (headData (resCmd (start sys c f))).processState = (headData c).processState := by
  obtain ⟨d, next⟩ := c
  rcases hp : d.process with _ | pid
  · rcases he : d.err with _ | e
    · rcases hs : sys.startErr d.path with _ | m
      · simp [start, hp, he, hs, resCmd, headData]
      · simp [start, hp, he, hs, resCmd, headData]
    · simp [start, hp, he, resCmd, headData]
  · simp [start, hp, resCmd, headData]

/-- `Wait` when starting the next stage fails: the start error is returned,
this stage's own underlying wait never runs, the closer is not released, and
this stage's span receives the explicit `End` and then the deferred
finalisation (a second `End`). -/
theorem wait_next_startFail (sys : Sys) (d : CmdData) (n : Cmd) (f pid : Nat)
    (e : Err) (n1 : Cmd) (f1 : Nat) (evs1 : List Event)
    (hp : d.process = some pid) (hw : d.processState = none)
    (hs : start sys n f = (some e, n1, f1, evs1)) :
    wait sys (.mk d (some n)) f =
      (some e, .mk d (some n1), f1,
        evs1 ++ endSpan d.ctx.span ++ finishSpan d.ctx.span none (some e)) := by
  rw [wait]
  rw [show chainLen (.mk d (some n)) = chainLen n + 1 from by simp [chainLen]]
  simp only [waitGo, hp, hw]
  rw [hs]

/-- `Wait` when the next stage starts but this stage's own wait fails: the
own exit error is returned, the next stage's span is marked with the message
naming this command and its exit code and is ended, and the next stage is
left exactly as `Start` left it — it is not waited on. -/
theorem wait_next_ownFail (sys : Sys) (d : CmdData) (n : Cmd) (f pid : Nat)
    (k : Int) (n1 : Cmd) (f1 : Nat) (evs1 : List Event)
    (hp : d.process = some pid) (hw : d.processState = none)
    (hs : start sys n f = (none, n1, f1, evs1))
    (hk : sys.exitCode d.path = k) (hk0 : ¬k = 0) :
    wait sys (.mk d (some n)) f =
      (some (.exitError k), .mk { d with processState := some k } (some n1), f1,
        evs1 ++ [Event.procWait pid k] ++ waitLog d k ++
          [Event.closeCloser d.closer] ++ statusEnd (ctxSpan n1) (failMsg d k) ++
          finishSpan d.ctx.span (some k) (some (.exitError k))) := by
  rw [wait]
  rw [show chainLen (.mk d (some n)) = chainLen n + 1 from by simp [chainLen]]
  simp only [waitGo, hp, hw]
  rw [hs]
  simp [hk, hk0]

/-- `Wait` when the next stage starts and this stage's own wait succeeds: the
closer is released and the aggregate result is the next stage's `Wait`. -/
theorem wait_next_ownOk (sys : Sys) (d : CmdData) (n : Cmd) (f pid : Nat)
    (n1 : Cmd) (f1 : Nat) (evs1 : List Event)
    (hp : d.process = some pid) (hw : d.processState = none)
    (hs : start sys n f = (none, n1, f1, evs1))
    (hk : sys.exitCode d.path = 0) :
    wait sys (.mk d (some n)) f =
      (resErr (wait sys n1 f1),
        .mk { d with processState := some 0 } (some (resCmd (wait sys n1 f1))),
        resFresh (wait sys n1 f1),
        evs1 ++ [Event.procWait pid 0] ++ [Event.closeCloser d.closer] ++
          resEvents (wait sys n1 f1) ++
          finishSpan d.ctx.span (some 0) (resErr (wait sys n1 f1))) := by
  have hlen : chainLen n1 = chainLen n := by
    have := chainLen_start sys n f
    rw [hs] at this
    simpa [resCmd] using this
  rw [wait]
  rw [show chainLen (.mk d (some n)) = chainLen n + 1 from by simp [chainLen]]
  simp only [waitGo, hp, hw]
  rw [hs]
  simp only [hk, if_pos rfl]
  rw [show waitGo sys (chainLen n) n1 f1 = wait sys n1 f1 from by rw [wait, hlen]]
  rcases hrec : wait sys n1 f1 with ⟨e2, n2, f2, evs2⟩
  simp [waitLog, resErr, resCmd, resFresh, resEvents]

@[simp] theorem unusedChainB_mk (d : CmdData) (next : Option Cmd) :
    unusedChainB (.mk d next) =
      (d.process.isNone && d.processState.isNone && unusedNextB next) := by
  cases next <;> simp [unusedChainB, unusedNextB]

@[simp] theorem goodChainB_mk (sys : Sys) (d : CmdData) (next : Option Cmd) :
    goodChainB sys (.mk d next) =
      (d.err.isNone && (sys.startErr d.path).isNone && goodNextB sys next) := by
  cases next <;> simp [goodChainB, goodNextB]

@[simp] theorem allExitZeroB_mk (sys : Sys) (d : CmdData) (next : Option Cmd) :
    allExitZeroB sys (.mk d next) =
      ((sys.exitCode d.path == 0) && allExitZeroNextB sys next) := by
  cases next <;> simp [allExitZeroB, allExitZeroNextB]

@[simp] theorem allWaitedB_mk (d : CmdData) (next : Option Cmd) :
    allWaitedB (.mk d next) = (d.processState.isSome && allWaitedNextB next) := by
  cases next <;> simp [allWaitedB, allWaitedNextB]

@[simp] theorem allExitZeroB_withCtx (sys : Sys) (ctx : Ctx) (c : Cmd) :
    allExitZeroB sys (withCtx ctx c) = allExitZeroB sys c := by
  cases c with
  | mk d next => cases next <;> simp [withCtx, allExitZeroB]

@[simp] theorem allExitZeroNextB_mapCtx (sys : Sys) (ctx : Ctx) (next : Option Cmd) :
    allExitZeroNextB sys (next.map (withCtx ctx)) = allExitZeroNextB sys next := by
  cases next <;> simp [allExitZeroNextB]

/-- When the next stage starts successfully, it carries the span opened from
counter `f` in its context. -/
theorem start_ok_ctxSpan (sys : Sys) (n : Cmd) (f : Nat)
    (hs : resErr (start sys n f) = none) :
    ctxSpan (resCmd (start sys n f)) = some f := by
  obtain ⟨nd, nn⟩ := n
  rcases hp : nd.process with _ | pid
  · rcases he : nd.err with _ | e
    · rcases hse : sys.startErr nd.path with _ | m
      · simp [start, hp, he, hse, resCmd, ctxSpan]
      · simp [start, hp, he, hse, resErr] at hs
    · simp [start, hp, he, resErr] at hs
  · simp [start, hp, resErr] at hs

/-- On an all-successful chain, `Wait` on a started head drains everything:
no error, and every stage carries exit information afterwards. -/
theorem waitGo_all_success (sys : Sys) :
    ∀ fuel (d : CmdData) (next : Option Cmd) (f pid : Nat),
    fuel = chainLen (.mk d next) →
    d.process = some pid → d.processState = none →
    unusedNextB next = true → goodNextB sys next = true →
    sys.exitCode d.path = 0 → allExitZeroNextB sys next = true →
    resErr (waitGo sys fuel (.mk d next) f) = none ∧
    allWaitedB (resCmd (waitGo sys fuel (.mk d next) f)) = true := by
  intro fuel
  induction fuel with
  | zero =>
    intro d next f pid hf
    exact absurd hf (by have := chainLen_pos (.mk d next); omega)
  | succ fuel ih =>
    intro d next f pid hf hp hw hu hg hz ha
    rcases next with _ | n
    · simp [waitGo, hp, hw, hz, resErr, resCmd, allWaitedNextB]
    · obtain ⟨nd, nn⟩ := n
      simp only [unusedNextB, unusedChainB_mk, Bool.and_eq_true,
        Option.isNone_iff_eq_none] at hu
      simp only [goodNextB, goodChainB_mk, Bool.and_eq_true,
        Option.isNone_iff_eq_none] at hg
      simp only [allExitZeroNextB, allExitZeroB_mk, Bool.and_eq_true,
        beq_iff_eq] at ha
      have hstart := start_success sys nd nn f hu.1.1 hg.1.1 hg.1.2
      have hwaiteq : waitGo sys (fuel + 1) (.mk d (some (.mk nd nn))) f =
          wait sys (.mk d (some (.mk nd nn))) f := by
        rw [wait, ← hf]
      rw [hwaiteq,
        wait_next_ownOk sys d (.mk nd nn) f pid _ _ _ hp hw hstart hz]
      have hlen1 : chainLen
          (.mk (startedData nd f) (Option.map (withCtx ⟨some f⟩) nn)) = fuel := by
        have h1 : chainLen (.mk (startedData nd f) (Option.map (withCtx ⟨some f⟩) nn)) =
            chainLen (.mk (startedData nd f) nn) := chainLen_mk_mapCtx _ _ _
        have h2 : chainLen (.mk (startedData nd f) nn) = chainLen (.mk nd nn) :=
          chainLen_mk_ignore _ _ _
        have h3 : chainLen (.mk d (some (.mk nd nn))) = chainLen (.mk nd nn) + 1 := by
          simp [chainLen]
        omega
      have hiw : wait sys
          (.mk (startedData nd f) (Option.map (withCtx ⟨some f⟩) nn)) (f + 2) =
          waitGo sys fuel
            (.mk (startedData nd f) (Option.map (withCtx ⟨some f⟩) nn)) (f + 2) := by
        rw [wait, hlen1]
      have hrec := ih (startedData nd f) (Option.map (withCtx ⟨some f⟩) nn)
        (f + 2) (f + 1) hlen1.symm (by simp [startedData])
        (by simp [startedData, hu.1.2])
        (by rw [unusedNextB_mapCtx]; simpa [unusedNextB] using hu.2)
        (by rw [goodNextB_mapCtx]; simpa [goodNextB] using hg.2)
        (by simp [startedData, ha.1])
        (by rw [allExitZeroNextB_mapCtx]; simpa [allExitZeroNextB] using ha.2)
      rw [← hiw] at hrec
      simp only [resErr, resCmd] at hrec
      simp only [resErr, resCmd, allWaitedNextB]
      exact ⟨hrec.1, hrec.2⟩

/-! ### Claim C1: the Wait protocol across a pipe -/

/-- Claim C1: for a started, not-yet-waited descriptor with a next stage,
`Wait` starts the next stage at the very beginning of its own wait — the
trace begins with the next stage's `Start` trace; when this stage's
underlying wait succeeds, the aggregate result is the next stage's `Wait`
result; when it fails, `Wait` returns this stage's exit error without
waiting on the next stage — the next descriptor is returned exactly as
`Start` left it — while the next stage's span (the one opened from counter
`f`) is set to error status with the message naming this stage's rendered
command and exit code, and that span is ended.  Consequently, on an
all-successful chain a started head's `Wait` returns no error and every
downstream stage has been started and waited when it returns. -/
theorem wait_next_stage_protocol (sys : Sys) (d : CmdData) (n : Cmd) (f pid : Nat)
    (hp : d.process = some pid) (hw : d.processState = none) :
    (∃ rest, resEvents (wait sys (.mk d (some n)) f) =
        resEvents (start sys n f) ++ rest) ∧
    (resErr (start sys n f) = none → sys.exitCode d.path = 0 →
      resErr (wait sys (.mk d (some n)) f) =
        resErr (wait sys (resCmd (start sys n f)) (resFresh (start sys n f)))) ∧
    (∀ k : Int, resErr (start sys n f) = none → sys.exitCode d.path = k → ¬k = 0 →
      resErr (wait sys (.mk d (some n)) f) = some (.exitError k) ∧
      nextOf (resCmd (wait sys (.mk d (some n)) f)) = some (resCmd (start sys n f)) ∧
      resEvents (wait sys (.mk d (some n)) f) =
        resEvents (start sys n f) ++ [Event.procWait pid k] ++ waitLog d k ++
          [Event.closeCloser d.closer] ++
          [Event.spanSetStatus f .error (failMsg d k), Event.spanEnd f] ++
          finishSpan d.ctx.span (some k) (some (.exitError k))) ∧
    (∀ (d2 : CmdData) (next2 : Option Cmd) (f2 pid2 : Nat),
      d2.process = some pid2 → d2.processState = none →
      unusedNextB next2 = true → goodNextB sys next2 = true →
      sys.exitCode d2.path = 0 → allExitZeroNextB sys next2 = true →
      resErr (wait sys (.mk d2 next2) f2) = none ∧
      allWaitedB (resCmd (wait sys (.mk d2 next2) f2)) = true) := by
  rcases hstart : start sys n f with ⟨oe, n1, f1, evs1⟩
  refine ⟨?_, ?_, ?_, ?_⟩
  · rcases oe with _ | e
    · by_cases hk0 : sys.exitCode d.path = 0
      · rw [wait_next_ownOk sys d n f pid n1 f1 evs1 hp hw hstart hk0]
        exact ⟨[Event.procWait pid 0] ++ [Event.closeCloser d.closer] ++
            resEvents (wait sys n1 f1) ++
            finishSpan d.ctx.span (some 0) (resErr (wait sys n1 f1)),
          by simp [resEvents, hstart, List.append_assoc]⟩
      · rw [wait_next_ownFail sys d n f pid _ n1 f1 evs1 hp hw hstart rfl hk0]
        exact ⟨[Event.procWait pid (sys.exitCode d.path)] ++
            waitLog d (sys.exitCode d.path) ++ [Event.closeCloser d.closer] ++
            statusEnd (ctxSpan n1) (failMsg d (sys.exitCode d.path)) ++
            finishSpan d.ctx.span (some (sys.exitCode d.path))
              (some (.exitError (sys.exitCode d.path))),
          by simp [resEvents, hstart, List.append_assoc]⟩
    · rw [wait_next_startFail sys d n f pid e n1 f1 evs1 hp hw hstart]
      exact ⟨endSpan d.ctx.span ++ finishSpan d.ctx.span none (some e),
        by simp [resEvents, hstart, List.append_assoc]⟩
  · intro hok hk0
    rw [resErr] at hok
    simp only at hok
    subst hok
    rw [wait_next_ownOk sys d n f pid n1 f1 evs1 hp hw hstart hk0]
    simp [resErr, resCmd, resFresh, hstart]
  · intro k hok hk hk0
    rw [resErr] at hok
    simp only at hok
    subst hok
    have hspan : ctxSpan n1 = some f := by
      have := start_ok_ctxSpan sys n f (by rw [hstart]; rfl)
      rw [hstart] at this
      simpa [resCmd] using this
    rw [wait_next_ownFail sys d n f pid k n1 f1 evs1 hp hw hstart hk hk0]
    refine ⟨rfl, by simp [resCmd, nextOf, hstart], ?_⟩
    simp [resEvents, hstart, hspan, statusEnd]
  · intro d2 next2 f2 pid2 h1 h2 h3 h4 h5 h6
    exact waitGo_all_success sys (chainLen (.mk d2 next2)) d2 next2 f2 pid2
      rfl h1 h2 h3 h4 h5 h6

/-- Witness for `wait_next_stage_protocol` at concrete inputs: the head's
process `/bin/fail` exits with code 1, so its `Wait` returns `exit status 1`
and the already-started second stage is left unwaited. -/
theorem wait_next_stage_protocol_witness :
    resErr (wait sysT
      (.mk { sampleData with path := "/bin/fail", process := some 10, ctx := ⟨some 9⟩ }
        (some (.mk { sampleData with path := "/bin/b" } none))) 20) =
      some (.exitError 1) := by
  exact ((wait_next_stage_protocol sysT
    { sampleData with path := "/bin/fail", process := some 10, ctx := ⟨some 9⟩ }
    (.mk { sampleData with path := "/bin/b" } none) 20 10 rfl rfl).2.2.1
    1 rfl rfl (by decide)).1

/-! ### Claim C9: start ordering across the pipeline -/

/-- Claim C9 (corrected): a downstream stage is started by the previous
stage's `Wait` before — not after — the previous stage's underlying wait
completes: the wait trace begins with the next stage's `Start` trace and the
previous stage's own wait completion comes after it.  What is lazy is the
waiting: the next stage is waited on only when the previous stage's
underlying wait reports success; on failure it is left exactly as `Start`
left it, never waited.  The original claim — downstream started only at the
moment the previous stage finishes waiting successfully — is refuted by
`next_started_before_wait_cex`. -/
theorem eager_start_lazy_wait (sys : Sys) (d : CmdData) (n : Cmd) (f pid : Nat)
    (k : Int) (hp : d.process = some pid) (hw : d.processState = none)
    (hk : sys.exitCode d.path = k) (hs : resErr (start sys n f) = none) :
    (∃ rest, resEvents (wait sys (.mk d (some n)) f) =
      resEvents (start sys n f) ++ [Event.procWait pid k] ++ rest) ∧
    (¬k = 0 → nextOf (resCmd (wait sys (.mk d (some n)) f)) =
        some (resCmd (start sys n f)) ∧
      (headData (resCmd (start sys n f))).processState =
        (headData n).processState) ∧
    (k = 0 → resEvents (wait sys (.mk d (some n)) f) =
      resEvents (start sys n f) ++ [Event.procWait pid 0] ++
        [Event.closeCloser d.closer] ++
        resEvents (wait sys (resCmd (start sys n f)) (resFresh (start sys n f))) ++
        finishSpan d.ctx.span (some 0)
          (resErr (wait sys (resCmd (start sys n f)) (resFresh (start sys n f))))) := by
  rcases hstart : start sys n f with ⟨oe, n1, f1, evs1⟩
  rw [hstart] at hs
  simp only [resErr] at hs
  subst hs
  refine ⟨?_, ?_, ?_⟩
  · by_cases hk0 : k = 0
    · subst hk0
      rw [wait_next_ownOk sys d n f pid n1 f1 evs1 hp hw hstart hk]
      exact ⟨[Event.closeCloser d.closer] ++ resEvents (wait sys n1 f1) ++
          finishSpan d.ctx.span (some 0) (resErr (wait sys n1 f1)),
        by simp [resEvents, hstart, List.append_assoc]⟩
    · rw [wait_next_ownFail sys d n f pid k n1 f1 evs1 hp hw hstart hk hk0]
      exact ⟨waitLog d k ++ [Event.closeCloser d.closer] ++
          statusEnd (ctxSpan n1) (failMsg d k) ++
          finishSpan d.ctx.span (some k) (some (.exitError k)),
        by simp [resEvents, hstart, List.append_assoc]⟩
  · intro hk0
    rw [wait_next_ownFail sys d n f pid k n1 f1 evs1 hp hw hstart hk hk0]
    constructor
    · simp [resCmd, nextOf, hstart]
    · have := start_headData_processState sys n f
      rw [hstart] at this
      simpa [resCmd] using this
  · intro hk0
    subst hk0
    rw [wait_next_ownOk sys d n f pid n1 f1 evs1 hp hw hstart hk]
    simp [resEvents, resErr, resFresh, resCmd, List.append_assoc]

/-- Witness for `eager_start_lazy_wait` at concrete inputs: the trace of the
head's `Wait` begins with the second stage's `Start` trace followed by the
head's own wait completion. -/
theorem eager_start_lazy_wait_witness :
    ∃ rest, resEvents (wait sysT
      (.mk { sampleData with process := some 10, ctx := ⟨some 9⟩ }
        (some (.mk { sampleData with path := "/bin/b" } none))) 20) =
      resEvents (start sysT (.mk { sampleData with path := "/bin/b" } none) 20) ++
        [Event.procWait 10 0] ++ rest := by
  exact (eager_start_lazy_wait sysT
    { sampleData with process := some 10, ctx := ⟨some 9⟩ }
    (.mk { sampleData with path := "/bin/b" } none) 20 10 0 rfl rfl rfl rfl).1

/-- Counterexample to claim C9 as stated: in the all-successful two-stage
pipeline `a | b`, the spawn of stage `b` (process 6) appears in the run trace
strictly before the wait-completion of stage `a` (process 4): the downstream
stage is started before the previous stage's underlying wait has completed. -/
theorem next_started_before_wait_cex :
    ((resEvents (run sysT (commandContext sysT ⟨none⟩ "a" [.pipe "b" []] 0).1 3)).any
        (isProcStartOf 6) = true) ∧
    ((resEvents (run sysT (commandContext sysT ⟨none⟩ "a" [.pipe "b" []] 0).1 3)).any
        (isProcWaitOf 4) = true) ∧
    (resEvents (run sysT (commandContext sysT ⟨none⟩ "a" [.pipe "b" []] 0).1 3)).findIdx
        (isProcStartOf 6) <
      (resEvents (run sysT (commandContext sysT ⟨none⟩ "a" [.pipe "b" []] 0).1 3)).findIdx
        (isProcWaitOf 4) := by
  refine ⟨?_, ?_, ?_⟩ <;> decide

/-! ### Counting lemmas for traces -/

theorem closeCount_append (a b : List Event) (cl : Closer) :
    closeCount (a ++ b) cl = closeCount a cl + closeCount b cl := by
  induction a with
  | nil => simp [closeCount]
  | cons e t ih => simp [closeCount, ih]; omega

theorem closeCount_eq_zero (evs : List Event) (cl : Closer)
    (h : Event.closeCloser cl ∉ evs) : closeCount evs cl = 0 := by
  induction evs with
  | nil => simp [closeCount]
  | cons e t ih =>
    simp at h
    have hne : ¬e = Event.closeCloser cl := fun he => h.1 he.symm
    simp [closeCount, ih h.2, hne]

@[simp] theorem closeCount_finishSpan (sid : Option Nat) (ps : Option Int)
    (e : Option Err) (cl : Closer) : closeCount (finishSpan sid ps e) cl = 0 := by
  rcases sid with _ | s
  · simp [finishSpan, closeCount]
  · rcases e with _ | e <;> simp [finishSpan, closeCount]

@[simp] theorem closeCount_endSpan (sid : Option Nat) (cl : Closer) :
    closeCount (endSpan sid) cl = 0 := by
  rcases sid with _ | s <;> simp [endSpan, closeCount]

@[simp] theorem closeCount_statusEnd (sid : Option Nat) (msg : String) (cl : Closer) :
    closeCount (statusEnd sid msg) cl = 0 := by
  rcases sid with _ | s <;> simp [statusEnd, closeCount]

@[simp] theorem closeCount_waitLog (d : CmdData) (k : Int) (cl : Closer) :
    closeCount (waitLog d k) cl = 0 := by
  unfold waitLog
  split <;> simp [closeCount]

/-- `Start` never releases a closer. -/
theorem start_no_close (sys : Sys) (c : Cmd) (f : Nat) (cl : Closer) :
    Event.closeCloser cl ∉ resEvents (start sys c f) := by
  obtain ⟨d, next⟩ := c
  rcases hp : d.process with _ | pid
  · rcases he : d.err with _ | e
    · rcases hs : sys.startErr d.path with _ | m
      · simp [start, hp, he, hs, resEvents]
      · simp [start, hp, he, hs, resEvents]
    · simp [start, hp, he, resEvents]
  · simp [start, hp, resEvents]

/-- `Start` preserves the chain's closers. -/
theorem closersOf_start (sys : Sys) (c : Cmd) (f : Nat) :
    closersOf (resCmd (start sys c f)) = closersOf c := by
  obtain ⟨d, next⟩ := c
  rcases hp : d.process with _ | pid
  · rcases he : d.err with _ | e
    · rcases hs : sys.startErr d.path with _ | m
      · simp [start, hp, he, hs, resCmd]
        cases next <;> simp [closersOf]
      · simp [start, hp, he, hs, resCmd]
        cases next <;> simp [closersOf]
    · simp [start, hp, he, resCmd]
      cases next <;> simp [closersOf]
  · simp [start, hp, resCmd]

@[simp] theorem not_mem_finishSpan_close (sid : Option Nat) (ps : Option Int)
    (e : Option Err) (cl : Closer) : Event.closeCloser cl ∉ finishSpan sid ps e := by
  rcases sid with _ | t
  · simp [finishSpan]
  · rcases e with _ | e <;> simp [finishSpan]

@[simp] theorem not_mem_endSpan_close (sid : Option Nat) (cl : Closer) :
    Event.closeCloser cl ∉ endSpan sid := by
  rcases sid with _ | t <;> simp [endSpan]

@[simp] theorem not_mem_statusEnd_close (sid : Option Nat) (msg : String) (cl : Closer) :
    Event.closeCloser cl ∉ statusEnd sid msg := by
  rcases sid with _ | t <;> simp [statusEnd]

@[simp] theorem not_mem_waitLog_close (d : CmdData) (k : Int) (cl : Closer) :
    Event.closeCloser cl ∉ waitLog d k := by
  unfold waitLog
  split <;> simp

/-- One unfolding of `Wait`'s body when starting the next stage fails. -/
theorem waitGo_succ_startFail (sys : Sys) (fuel : Nat) (d : CmdData) (n : Cmd)
    (f pid : Nat) (e : Err) (n1 : Cmd) (f1 : Nat) (evs1 : List Event)
    (hp : d.process = some pid) (hw : d.processState = none)
    (hs : start sys n f = (some e, n1, f1, evs1)) :
    waitGo sys (fuel + 1) (.mk d (some n)) f =
      (some e, .mk d (some n1), f1,
        evs1 ++ endSpan d.ctx.span ++ finishSpan d.ctx.span none (some e)) := by
  simp only [waitGo, hp, hw]
  rw [hs]

/-- One unfolding of `Wait`'s body when the next stage starts and this
stage's own wait fails. -/
theorem waitGo_succ_ownFail (sys : Sys) (fuel : Nat) (d : CmdData) (n : Cmd)
    (f pid : Nat) (k : Int) (n1 : Cmd) (f1 : Nat) (evs1 : List Event)
    (hp : d.process = some pid) (hw : d.processState = none)
    (hs : start sys n f = (none, n1, f1, evs1))
    (hk : sys.exitCode d.path = k) (hk0 : ¬k = 0) :
    waitGo sys (fuel + 1) (.mk d (some n)) f =
      (some (.exitError k), .mk { d with processState := some k } (some n1), f1,
        evs1 ++ [Event.procWait pid k] ++ waitLog d k ++
          [Event.closeCloser d.closer] ++ statusEnd (ctxSpan n1) (failMsg d k) ++
          finishSpan d.ctx.span (some k) (some (.exitError k))) := by
  simp only [waitGo, hp, hw]
  rw [hs]
  simp [hk, hk0]

/-- One unfolding of `Wait`'s body when the next stage starts and this
stage's own wait succeeds. -/
theorem waitGo_succ_ownOk (sys : Sys) (fuel : Nat) (d : CmdData) (n : Cmd)
    (f pid : Nat) (n1 : Cmd) (f1 : Nat) (evs1 : List Event)
    (hp : d.process = some pid) (hw : d.processState = none)
    (hs : start sys n f = (none, n1, f1, evs1))
    (hk : sys.exitCode d.path = 0) :
    waitGo sys (fuel + 1) (.mk d (some n)) f =
      ((waitGo sys fuel n1 f1).1,
        .mk { d with processState := some 0 } (some (waitGo sys fuel n1 f1).2.1),
        (waitGo sys fuel n1 f1).2.2.1,
        evs1 ++ [Event.procWait pid 0] ++ [Event.closeCloser d.closer] ++
          (waitGo sys fuel n1 f1).2.2.2 ++
          finishSpan d.ctx.span (some 0) (waitGo sys fuel n1 f1).1) := by
  simp only [waitGo, hp, hw]
  rw [hs]
  simp [hk, waitLog]

/-- One unfolding of `Wait`'s body for the last stage. -/
theorem waitGo_succ_noNext (sys : Sys) (fuel : Nat) (d : CmdData)
    (f pid : Nat) (k : Int)
    (hp : d.process = some pid) (hw : d.processState = none)
    (hk : sys.exitCode d.path = k) :
    waitGo sys (fuel + 1) (.mk d none) f =
      (if k = 0 then none else some (.exitError k),
        .mk { d with processState := some k } none, f,
        [Event.procWait pid k] ++ waitLog d k ++ [Event.closeCloser d.closer] ++
          finishSpan d.ctx.span (some k)
            (if k = 0 then none else some (.exitError k))) := by
  simp only [waitGo, hp, hw]
  rw [hk]

/-- Every closer released during `Wait` is one registered along the chain. -/
theorem waitGo_close_mem (sys : Sys) :
    ∀ fuel (c : Cmd) (f : Nat) (cl : Closer),
    Event.closeCloser cl ∈ resEvents (waitGo sys fuel c f) → cl ∈ closersOf c := by
  intro fuel
  induction fuel with
  | zero => intro c f cl h; simp [waitGo, resEvents] at h
  | succ fuel ih =>
    intro c f cl h
    obtain ⟨d, next⟩ := c
    rcases hp : d.process with _ | pid
    · simp [waitGo, hp, resEvents] at h
    · rcases hw : d.processState with _ | ps
      · rcases next with _ | n
        · rw [waitGo_succ_noNext sys fuel d f pid (sys.exitCode d.path) hp hw rfl] at h
          simp [resEvents] at h
          simp [closersOf, h]
        · rcases hstart : start sys n f with ⟨oe, n1, f1, evs1⟩
          have hnc : Event.closeCloser cl ∉ evs1 := by
            have h2 := start_no_close sys n f cl
            rw [hstart] at h2
            simpa [resEvents] using h2
          have hcl1 : closersOf n1 = closersOf n := by
            have h2 := closersOf_start sys n f
            rw [hstart] at h2
            simpa [resCmd] using h2
          rcases oe with _ | e
          · by_cases hk0 : sys.exitCode d.path = 0
            · rw [waitGo_succ_ownOk sys fuel d n f pid n1 f1 evs1 hp hw hstart hk0] at h
              simp [resEvents, hnc] at h
              rcases h with h | h
              · simp [closersOf, h]
              · have h3 := ih n1 f1 cl (by simpa [resEvents] using h)
                rw [hcl1] at h3
                simp [closersOf, h3]
            · rw [waitGo_succ_ownFail sys fuel d n f pid (sys.exitCode d.path)
                  n1 f1 evs1 hp hw hstart rfl hk0] at h
              simp [resEvents, hnc] at h
              simp [closersOf, h]
          · rw [waitGo_succ_startFail sys fuel d n f pid e n1 f1 evs1 hp hw hstart] at h
            simp [resEvents, hnc] at h
      · simp [waitGo, hp, hw, resEvents] at h

/-! ### Claim C4: closer release -/

/-- Claim C4 (corrected): for a descriptor past the not-started and
already-waited guards, `Wait` releases the registered closer exactly once on
every exit path — both when there is no next stage and when the next stage
starts (whether this stage's own wait then succeeds or fails) — EXCEPT on the
path where starting the next stage fails: there `Wait` returns before the
cleanup is registered and the closer is not released at all (the original
claim explicitly included that path; see `closer_not_released_cex`).  The
model's release has no error channel, mirroring the ignored `Close` result. -/
theorem closer_release_amended (sys : Sys) (d : CmdData) (next : Option Cmd)
    (f pid : Nat) (hp : d.process = some pid) (hw : d.processState = none) :
    (next = none → closeCount (resEvents (wait sys (.mk d next) f)) d.closer = 1) ∧
    (∀ n e, next = some n → resErr (start sys n f) = some e →
      closeCount (resEvents (wait sys (.mk d next) f)) d.closer = 0) ∧
    (∀ n, next = some n → resErr (start sys n f) = none → d.closer ∉ closersOf n →
      closeCount (resEvents (wait sys (.mk d next) f)) d.closer = 1) := by
  refine ⟨?_, ?_, ?_⟩
  · intro hn
    subst hn
    rw [wait, show chainLen (.mk d none) = 0 + 1 from by simp [chainLen],
      waitGo_succ_noNext sys 0 d f pid (sys.exitCode d.path) hp hw rfl]
    simp [resEvents, closeCount_append, closeCount]
  · intro n e hn he
    subst hn
    rcases hstart : start sys n f with ⟨oe, n1, f1, evs1⟩
    rw [hstart] at he
    simp only [resErr] at he
    subst he
    have hnc : Event.closeCloser d.closer ∉ evs1 := by
      have h2 := start_no_close sys n f d.closer
      rw [hstart] at h2
      simpa [resEvents] using h2
    rw [wait, show chainLen (.mk d (some n)) = chainLen n + 1 from by simp [chainLen],
      waitGo_succ_startFail sys (chainLen n) d n f pid e n1 f1 evs1 hp hw hstart]
    simp [resEvents, closeCount_append, closeCount_eq_zero _ _ hnc]
  · intro n hn hok hfree
    subst hn
    rcases hstart : start sys n f with ⟨oe, n1, f1, evs1⟩
    rw [hstart] at hok
    simp only [resErr] at hok
    subst hok
    have hnc : Event.closeCloser d.closer ∉ evs1 := by
      have h2 := start_no_close sys n f d.closer
      rw [hstart] at h2
      simpa [resEvents] using h2
    have hcl1 : closersOf n1 = closersOf n := by
      have h2 := closersOf_start sys n f
      rw [hstart] at h2
      simpa [resCmd] using h2
    by_cases hk0 : sys.exitCode d.path = 0
    · rw [wait, show chainLen (.mk d (some n)) = chainLen n + 1 from by simp [chainLen],
        waitGo_succ_ownOk sys (chainLen n) d n f pid n1 f1 evs1 hp hw hstart hk0]
      have hrec : closeCount (waitGo sys (chainLen n) n1 f1).2.2.2 d.closer = 0 := by
        refine closeCount_eq_zero _ _ ?_
        intro hmem
        have h3 := waitGo_close_mem sys (chainLen n) n1 f1 d.closer
          (by simpa [resEvents] using hmem)
        rw [hcl1] at h3
        exact hfree h3
      simp [resEvents, closeCount_append, closeCount,
        closeCount_eq_zero _ _ hnc, hrec]
    · rw [wait, show chainLen (.mk d (some n)) = chainLen n + 1 from by simp [chainLen],
        waitGo_succ_ownFail sys (chainLen n) d n f pid (sys.exitCode d.path)
          n1 f1 evs1 hp hw hstart rfl hk0]
      simp [resEvents, closeCount_append, closeCount, closeCount_eq_zero _ _ hnc]

/-- Witness for `closer_release_amended` at concrete inputs: a last stage
with a registered pipe write end releases it exactly once. -/
theorem closer_release_amended_witness :
    closeCount (resEvents (wait sysT
      (.mk { sampleData with process := some 3, closer := .pipeWriter 9 } none) 5))
      (.pipeWriter 9) = 1 := by
  exact (closer_release_amended sysT
    { sampleData with process := some 3, closer := .pipeWriter 9 }
    none 5 3 rfl rfl).1 rfl

/-- Counterexample to claim C4 as stated: in the pipeline `a | bad` (where
spawning `bad` fails), the head's `Wait` passes both guards, its registered
pipe write end is `pipeWriter 2`, the run returns the spawn error — yet the
trace contains no release of that closer at all. -/
theorem closer_not_released_cex :
    (headData (commandContext sysT ⟨none⟩ "a" [.pipe "bad" []] 0).1).closer =
      .pipeWriter 2 ∧
    resErr (run sysT (commandContext sysT ⟨none⟩ "a" [.pipe "bad" []] 0).1 3) =
      some (.spawnFailed "boom") ∧
    closeCount
      (resEvents (run sysT (commandContext sysT ⟨none⟩ "a" [.pipe "bad" []] 0).1 3))
      (.pipeWriter 2) = 0 := by
  refine ⟨?_, ?_, ?_⟩ <;> rfl

/-! ### Claim C3: span accounting -/

@[simp] theorem opensOf_finishSpan (sid : Option Nat) (ps : Option Int)
    (e : Option Err) : opensOf (finishSpan sid ps e) = [] := by
  rcases sid with _ | t
  · simp [finishSpan, opensOf]
  · rcases e with _ | e <;> simp [finishSpan, opensOf]

@[simp] theorem opensOf_endSpan (sid : Option Nat) : opensOf (endSpan sid) = [] := by
  rcases sid with _ | t <;> simp [endSpan, opensOf]

@[simp] theorem opensOf_statusEnd (sid : Option Nat) (msg : String) :
    opensOf (statusEnd sid msg) = [] := by
  rcases sid with _ | t <;> simp [statusEnd, opensOf]

@[simp] theorem opensOf_waitLog (d : CmdData) (k : Int) :
    opensOf (waitLog d k) = [] := by
  unfold waitLog
  split <;> simp [opensOf]

@[simp] theorem opensOf_startEvs (d : CmdData) (f : Nat) :
    opensOf (startEvs d f) = [f] := by
  simp [startEvs, opensOf]

@[simp] theorem endCount_finishSpan (sid : Option Nat) (ps : Option Int)
    (e : Option Err) (s : Nat) :
    endCount (finishSpan sid ps e) s = if sid = some s then 1 else 0 := by
  rcases sid with _ | t
  · simp [finishSpan, endCount]
  · rcases e with _ | e <;> simp [finishSpan, endCount]

@[simp] theorem endCount_endSpan (sid : Option Nat) (s : Nat) :
    endCount (endSpan sid) s = if sid = some s then 1 else 0 := by
  rcases sid with _ | t <;> simp [endSpan, endCount]

@[simp] theorem endCount_statusEnd (sid : Option Nat) (msg : String) (s : Nat) :
    endCount (statusEnd sid msg) s = if sid = some s then 1 else 0 := by
  rcases sid with _ | t <;> simp [statusEnd, endCount]

@[simp] theorem endCount_waitLog (d : CmdData) (k : Int) (s : Nat) :
    endCount (waitLog d k) s = 0 := by
  unfold waitLog
  split <;> simp [endCount]

@[simp] theorem endCount_startEvs (d : CmdData) (f : Nat) (s : Nat) :
    endCount (startEvs d f) s = 0 := by
  simp [startEvs, endCount]

/-- A `Start` that passes the guard and returns no error resolved and spawned
cleanly. -/
theorem start_ok_inv (sys : Sys) (d : CmdData) (next : Option Cmd) (f : Nat)
    (hp : d.process = none)
    (hok : resErr (start sys (.mk d next) f) = none) :
    d.err = none ∧ sys.startErr d.path = none := by
  rcases he : d.err with _ | e
  · rcases hs : sys.startErr d.path with _ | m
    · exact ⟨rfl, rfl⟩
    · simp [start, hp, he, hs, resErr] at hok
  · simp [start, hp, he, resErr] at hok

/-- Span accounting for a failed `Start` (guard passed): exactly one span is
opened, from the counter, and it is ended exactly once. -/
theorem start_fail_counts (sys : Sys) (d : CmdData) (next : Option Cmd) (f : Nat)
    (e : Err) (hp : d.process = none)
    (hfail : resErr (start sys (.mk d next) f) = some e) :
    opensOf (resEvents (start sys (.mk d next) f)) = [f] ∧
    ∀ s, endCount (resEvents (start sys (.mk d next) f)) s =
      if s = f then 1 else 0 := by
  rcases he : d.err with _ | e2
  · rcases hs : sys.startErr d.path with _ | m
    · simp [start, hp, he, hs, resErr] at hfail
    · constructor
      · simp [start, hp, he, hs, resEvents, opensOf]
      · intro s
        simp only [start, hp, he, hs, resEvents]
        simp [endCount]
        by_cases hsf : f = s
        · simp [hsf]
        · simp [hsf, Ne.symm hsf]
  · constructor
    · simp [start, hp, he, resEvents, opensOf]
    · intro s
      simp only [start, hp, he, resEvents]
      simp [endCount]
      by_cases hsf : f = s
      · simp [hsf]
      · simp [hsf, Ne.symm hsf]

@[simp] theorem opensOf_procWait (pid : Nat) (k : Int) :
    opensOf [Event.procWait pid k] = [] := rfl

@[simp] theorem opensOf_cons_procWait (pid : Nat) (k : Int) (t : List Event) :
    opensOf (Event.procWait pid k :: t) = opensOf t := rfl

@[simp] theorem opensOf_cons_closeCloser (cl : Closer) (t : List Event) :
    opensOf (Event.closeCloser cl :: t) = opensOf t := rfl

@[simp] theorem endCount_cons_procWait (pid : Nat) (k : Int) (t : List Event)
    (s : Nat) : endCount (Event.procWait pid k :: t) s = endCount t s := by
  simp [endCount]

@[simp] theorem endCount_cons_closeCloser (cl : Closer) (t : List Event)
    (s : Nat) : endCount (Event.closeCloser cl :: t) s = endCount t s := by
  simp [endCount]

@[simp] theorem opensOf_closeCloser (cl : Closer) :
    opensOf [Event.closeCloser cl] = [] := rfl

@[simp] theorem endCount_procWait (pid : Nat) (k : Int) (s : Nat) :
    endCount [Event.procWait pid k] s = 0 := by simp [endCount]

@[simp] theorem endCount_closeCloser (cl : Closer) (s : Nat) :
    endCount [Event.closeCloser cl] s = 0 := by simp [endCount]

/-- Span accounting for `Wait` on a started head whose span is `s0` and whose
counter is at least `f > s0`: every span opened during the wait has an
identifier at least `f`; the head's span is ended once or twice; spans that
are neither the head's nor opened here are never ended; every span opened
here is ended once or twice; and when every next stage is well formed and
spawns cleanly, the head's span and every opened span are ended exactly
once.  (The double end of the head's span happens exactly on the
failed-next-start path: the explicit `End` plus the deferred finaliser.) -/
theorem waitGo_span_accounting (sys : Sys) :
    ∀ fuel (d : CmdData) (next : Option Cmd) (f pid s0 : Nat),
    fuel = chainLen (.mk d next) →
    d.process = some pid → d.processState = none →
    d.ctx.span = some s0 → s0 < f →
    unusedNextB next = true →
    (∀ s ∈ opensOf (resEvents (waitGo sys fuel (.mk d next) f)), f ≤ s) ∧
    (1 ≤ endCount (resEvents (waitGo sys fuel (.mk d next) f)) s0 ∧
      endCount (resEvents (waitGo sys fuel (.mk d next) f)) s0 ≤ 2) ∧
    (∀ s, ¬s = s0 → s ∉ opensOf (resEvents (waitGo sys fuel (.mk d next) f)) →
      endCount (resEvents (waitGo sys fuel (.mk d next) f)) s = 0) ∧
    (∀ s ∈ opensOf (resEvents (waitGo sys fuel (.mk d next) f)),
      1 ≤ endCount (resEvents (waitGo sys fuel (.mk d next) f)) s ∧
      endCount (resEvents (waitGo sys fuel (.mk d next) f)) s ≤ 2) ∧
    (goodNextB sys next = true →
      endCount (resEvents (waitGo sys fuel (.mk d next) f)) s0 = 1 ∧
      ∀ s ∈ opensOf (resEvents (waitGo sys fuel (.mk d next) f)),
        endCount (resEvents (waitGo sys fuel (.mk d next) f)) s = 1) := by
  intro fuel
  induction fuel with
  | zero =>
    intro d next f pid s0 hf
    exact absurd hf (by have := chainLen_pos (.mk d next); omega)
  | succ fuel ih =>
    intro d next f pid s0 hf hp hw hctx hlt hu
    rcases next with _ | n
    · rw [waitGo_succ_noNext sys fuel d f pid (sys.exitCode d.path) hp hw rfl]
      simp only [resEvents]
      rw [hctx]
      have hopens : opensOf ([Event.procWait pid (sys.exitCode d.path)] ++
          waitLog d (sys.exitCode d.path) ++ [Event.closeCloser d.closer] ++
          finishSpan (some s0) (some (sys.exitCode d.path))
            (if sys.exitCode d.path = 0 then none
             else some (.exitError (sys.exitCode d.path)))) = [] := by
        simp [opensOf_append]
      have hcount : ∀ s, endCount ([Event.procWait pid (sys.exitCode d.path)] ++
          waitLog d (sys.exitCode d.path) ++ [Event.closeCloser d.closer] ++
          finishSpan (some s0) (some (sys.exitCode d.path))
            (if sys.exitCode d.path = 0 then none
             else some (.exitError (sys.exitCode d.path)))) s =
          if s0 = s then 1 else 0 := by
        intro s
        simp [endCount_append]
      refine ⟨?_, ?_, ?_, ?_, ?_⟩
      · intro s hs
        rw [hopens] at hs
        simp at hs
      · rw [hcount]
        simp
      · intro s hneq hnotin
        rw [hcount]
        simp [show ¬s0 = s from fun h => hneq h.symm]
      · intro s hs
        rw [hopens] at hs
        simp at hs
      · intro hgood
        refine ⟨by rw [hcount]; simp, ?_⟩
        intro s hs
        rw [hopens] at hs
        simp at hs
    · obtain ⟨nd, nn⟩ := n
      simp only [unusedNextB, unusedChainB_mk, Bool.and_eq_true,
        Option.isNone_iff_eq_none] at hu
      rcases hstart : start sys (.mk nd nn) f with ⟨oe, n1, f1, evs1⟩
      rcases oe with _ | e
      · have hinv := start_ok_inv sys nd nn f hu.1.1 (by rw [hstart]; rfl)
        have hsh := start_success sys nd nn f hu.1.1 hinv.1 hinv.2
        rw [hstart] at hsh
        simp only [Prod.mk.injEq] at hsh
        obtain ⟨hn1, hf1, hevs1⟩ := hsh.2
        subst hn1 hf1 hevs1
        have hf2 : fuel =
            chainLen (.mk (startedData nd f) (nn.map (withCtx ⟨some f⟩))) := by
          rw [chainLen_mk_mapCtx, chainLen_mk_ignore _ nd nn]
          have hcl : chainLen (.mk d (some (.mk nd nn))) =
              chainLen (.mk nd nn) + 1 := by
            simp [chainLen]
          omega
        have IH := ih (startedData nd f) (nn.map (withCtx ⟨some f⟩)) (f + 2)
          (f + 1) f hf2 (by simp [startedData]) (by simp [startedData, hu.1.2])
          (by simp [startedData]) (by omega)
          (by rw [unusedNextB_mapCtx]; simpa [unusedNextB] using hu.2)
        simp only [resEvents] at IH
        by_cases hk0 : sys.exitCode d.path = 0
        · rw [waitGo_succ_ownOk sys fuel d (.mk nd nn) f pid _ _ _ hp hw hstart hk0]
          simp only [resEvents]
          rw [hctx]
          have hopens : opensOf (startEvs nd f ++ [Event.procWait pid 0] ++
              [Event.closeCloser d.closer] ++
              (waitGo sys fuel (.mk (startedData nd f)
                (nn.map (withCtx ⟨some f⟩))) (f + 2)).2.2.2 ++
              finishSpan (some s0) (some 0)
                (waitGo sys fuel (.mk (startedData nd f)
                  (nn.map (withCtx ⟨some f⟩))) (f + 2)).1) =
              f :: opensOf (waitGo sys fuel (.mk (startedData nd f)
                (nn.map (withCtx ⟨some f⟩))) (f + 2)).2.2.2 := by
            simp [opensOf_append]
          have hcount : ∀ s, endCount (startEvs nd f ++ [Event.procWait pid 0] ++
              [Event.closeCloser d.closer] ++
              (waitGo sys fuel (.mk (startedData nd f)
                (nn.map (withCtx ⟨some f⟩))) (f + 2)).2.2.2 ++
              finishSpan (some s0) (some 0)
                (waitGo sys fuel (.mk (startedData nd f)
                  (nn.map (withCtx ⟨some f⟩))) (f + 2)).1) s =
              endCount (waitGo sys fuel (.mk (startedData nd f)
                (nn.map (withCtx ⟨some f⟩))) (f + 2)).2.2.2 s +
                (if s0 = s then 1 else 0) := by
            intro s
            simp [endCount_append]
          have hnotin2 : s0 ∉ opensOf (waitGo sys fuel (.mk (startedData nd f)
              (nn.map (withCtx ⟨some f⟩))) (f + 2)).2.2.2 := by
            intro hmem
            have := IH.1 s0 hmem
            omega
          have hz2 : endCount (waitGo sys fuel (.mk (startedData nd f)
              (nn.map (withCtx ⟨some f⟩))) (f + 2)).2.2.2 s0 = 0 :=
            IH.2.2.1 s0 (by omega) hnotin2
          refine ⟨?_, ?_, ?_, ?_, ?_⟩
          · intro s hs
            rw [hopens] at hs
            rcases List.mem_cons.mp hs with h | h
            · omega
            · have := IH.1 s h
              omega
          · rw [hcount]
            simp [hz2]
          · intro s hneq hnotin
            rw [hopens] at hnotin
            simp only [List.mem_cons, not_or] at hnotin
            rw [hcount]
            simp [IH.2.2.1 s hnotin.1 hnotin.2,
              show ¬s0 = s from fun h => hneq h.symm]
          · intro s hs
            rw [hopens] at hs
            rw [hcount]
            rcases List.mem_cons.mp hs with h | h
            · subst h
              have hb := IH.2.1
              simp [show ¬s0 = s from by omega]
              omega
            · have hb := IH.2.2.2.1 s h
              have hge := IH.1 s h
              simp [show ¬s0 = s from by omega]
              omega
          · intro hgood
            simp only [goodNextB, goodChainB_mk, Bool.and_eq_true,
              Option.isNone_iff_eq_none] at hgood
            have IHE := IH.2.2.2.2
              (by rw [goodNextB_mapCtx]; simpa [goodNextB] using hgood.2)
            refine ⟨by rw [hcount]; simp [hz2], ?_⟩
            intro s hs
            rw [hopens] at hs
            rw [hcount]
            rcases List.mem_cons.mp hs with h | h
            · subst h
              simp [IHE.1, show ¬s0 = s from by omega]
            · have hge := IH.1 s h
              simp [IHE.2 s h, show ¬s0 = s from by omega]
        · rw [waitGo_succ_ownFail sys fuel d (.mk nd nn) f pid
            (sys.exitCode d.path) _ _ _ hp hw hstart rfl hk0]
          simp only [resEvents]
          rw [hctx]
          have hcs : ctxSpan (.mk (startedData nd f)
              (nn.map (withCtx ⟨some f⟩))) = some f := by
            simp [ctxSpan, startedData]
          rw [hcs]
          have hopens : opensOf (startEvs nd f ++
              [Event.procWait pid (sys.exitCode d.path)] ++
              waitLog d (sys.exitCode d.path) ++ [Event.closeCloser d.closer] ++
              statusEnd (some f) (failMsg d (sys.exitCode d.path)) ++
              finishSpan (some s0) (some (sys.exitCode d.path))
                (some (.exitError (sys.exitCode d.path)))) = [f] := by
            simp [opensOf_append]
          have hcount : ∀ s, endCount (startEvs nd f ++
              [Event.procWait pid (sys.exitCode d.path)] ++
              waitLog d (sys.exitCode d.path) ++ [Event.closeCloser d.closer] ++
              statusEnd (some f) (failMsg d (sys.exitCode d.path)) ++
              finishSpan (some s0) (some (sys.exitCode d.path))
                (some (.exitError (sys.exitCode d.path)))) s =
              (if f = s then 1 else 0) + (if s0 = s then 1 else 0) := by
            intro s
            simp [endCount_append]
          refine ⟨?_, ?_, ?_, ?_, ?_⟩
          · intro s hs
            rw [hopens] at hs
            simp at hs
            omega
          · rw [hcount]
            simp [show ¬f = s0 from by omega]
          · intro s hneq hnotin
            rw [hopens] at hnotin
            simp at hnotin
            rw [hcount]
            simp [show ¬f = s from fun h => hnotin h.symm,
              show ¬s0 = s from fun h => hneq h.symm]
          · intro s hs
            rw [hopens] at hs
            simp at hs
            subst hs
            rw [hcount]
            simp [show ¬s0 = s from by omega]
          · intro hgood
            refine ⟨by rw [hcount]; simp [show ¬f = s0 from by omega], ?_⟩
            intro s hs
            rw [hopens] at hs
            simp at hs
            subst hs
            rw [hcount]
            simp [show ¬s0 = s from by omega]
      · have hcounts := start_fail_counts sys nd nn f e hu.1.1 (by rw [hstart]; rfl)
        rw [hstart] at hcounts
        simp only [resEvents] at hcounts
        rw [waitGo_succ_startFail sys fuel d (.mk nd nn) f pid e _ _ _ hp hw hstart]
        simp only [resEvents]
        rw [hctx]
        have hopens : opensOf (evs1 ++ endSpan (some s0) ++
            finishSpan (some s0) none (some e)) = [f] := by
          simp [opensOf_append, hcounts.1]
        have hcount : ∀ s, endCount (evs1 ++ endSpan (some s0) ++
            finishSpan (some s0) none (some e)) s =
            (if s = f then 1 else 0) + (if s0 = s then 1 else 0) +
              (if s0 = s then 1 else 0) := by
          intro s
          simp [endCount_append, hcounts.2]
          omega
        refine ⟨?_, ?_, ?_, ?_, ?_⟩
        · intro s hs
          rw [hopens] at hs
          simp at hs
          omega
        · rw [hcount]
          simp [show ¬s0 = f from by omega]
        · intro s hneq hnotin
          rw [hopens] at hnotin
          simp at hnotin
          rw [hcount]
          simp [hnotin, show ¬s0 = s from fun h => hneq h.symm]
        · intro s hs
          rw [hopens] at hs
          simp at hs
          subst hs
          rw [hcount]
          simp [show ¬s0 = s from by omega]
        · intro hgood
          simp only [goodNextB, goodChainB_mk, Bool.and_eq_true,
            Option.isNone_iff_eq_none] at hgood
          have hok := start_success sys nd nn f hu.1.1 hgood.1.1 hgood.1.2
          rw [hstart] at hok
          simp at hok

/-- Claim C3 (corrected): over a full run of a freshly constructed chain,
every span that is opened is ended at least once and at most twice; and when
every stage is well formed and spawns cleanly — i.e. on every path except
the failed-next-start one — every opened span is ended exactly once.  The
original claim fails on the path where a stage's `Wait` cannot start the
next stage: there the stage's own span receives an explicit `End` and then a
second `End` from the deferred finaliser (see `span_double_end_cex`). -/
theorem span_close_amended (sys : Sys) (c : Cmd) (f : Nat)
    (hu : unusedChainB c = true) :
    (∀ s ∈ opensOf (resEvents (run sys c f)),
      1 ≤ endCount (resEvents (run sys c f)) s ∧
      endCount (resEvents (run sys c f)) s ≤ 2) ∧
    (goodChainB sys c = true →
      ∀ s ∈ opensOf (resEvents (run sys c f)),
        endCount (resEvents (run sys c f)) s = 1) := by
  obtain ⟨d, next⟩ := c
  simp only [unusedChainB_mk, Bool.and_eq_true, Option.isNone_iff_eq_none] at hu
  rcases hstart : start sys (.mk d next) f with ⟨oe, c1, f1, evs1⟩
  rcases oe with _ | e
  · have hinv := start_ok_inv sys d next f hu.1.1 (by rw [hstart]; rfl)
    have hsh := start_success sys d next f hu.1.1 hinv.1 hinv.2
    rw [hstart] at hsh
    simp only [Prod.mk.injEq] at hsh
    obtain ⟨hn1, hf1, hevs1⟩ := hsh.2
    subst hn1 hf1 hevs1
    rcases hwait : wait sys
        (.mk (startedData d f) (next.map (withCtx ⟨some f⟩))) (f + 2) with
      ⟨e2, c2, f2, evs2⟩
    have hrun : run sys (.mk d next) f = (e2, c2, f2, startEvs d f ++ evs2) := by
      unfold run
      rw [hstart]
      simp only
      rw [hwait]
    have SA := waitGo_span_accounting sys
      (chainLen (.mk (startedData d f) (next.map (withCtx ⟨some f⟩))))
      (startedData d f) (next.map (withCtx ⟨some f⟩)) (f + 2) (f + 1) f rfl
      (by simp [startedData]) (by simp [startedData, hu.1.2])
      (by simp [startedData]) (by omega)
      (by rw [unusedNextB_mapCtx]; simpa [unusedNextB] using hu.2)
    rw [show waitGo sys
        (chainLen (.mk (startedData d f) (next.map (withCtx ⟨some f⟩))))
        (.mk (startedData d f) (next.map (withCtx ⟨some f⟩))) (f + 2) =
        (e2, c2, f2, evs2) from hwait] at SA
    simp only [resEvents] at SA
    rw [hrun]
    simp only [resEvents]
    have hopens : opensOf (startEvs d f ++ evs2) = f :: opensOf evs2 := by
      simp [opensOf_append]
    have hcount : ∀ s, endCount (startEvs d f ++ evs2) s = endCount evs2 s := by
      intro s
      simp [endCount_append]
    constructor
    · intro s hs
      rw [hopens] at hs
      rw [hcount]
      rcases List.mem_cons.mp hs with h | h
      · subst h
        exact SA.2.1
      · exact SA.2.2.2.1 s h
    · intro hgood s hs
      simp only [goodChainB_mk, Bool.and_eq_true,
        Option.isNone_iff_eq_none] at hgood
      have SAE := SA.2.2.2.2 (by rw [goodNextB_mapCtx]; exact hgood.2)
      rw [hopens] at hs
      rw [hcount]
      rcases List.mem_cons.mp hs with h | h
      · subst h
        exact SAE.1
      · exact SAE.2 s h
  · have hcounts := start_fail_counts sys d next f e hu.1.1 (by rw [hstart]; rfl)
    rw [hstart] at hcounts
    simp only [resEvents] at hcounts
    have hrun : run sys (.mk d next) f = (some e, c1, f1, evs1) := by
      unfold run
      rw [hstart]
    rw [hrun]
    simp only [resEvents]
    constructor
    · intro s hs
      rw [hcounts.1] at hs
      simp at hs
      subst hs
      rw [hcounts.2]
      simp
    · intro hgood
      simp only [goodChainB_mk, Bool.and_eq_true,
        Option.isNone_iff_eq_none] at hgood
      have hok := start_success sys d next f hu.1.1 hgood.1.1 hgood.1.2
      rw [hstart] at hok
      simp at hok

/-- Witness for `span_close_amended` on the all-successful two-stage
pipeline `a | b`: the head's span (identifier 3) is opened and ended exactly
once. -/
theorem span_close_amended_witness :
    3 ∈ opensOf (resEvents (run sysT
      (commandContext sysT ⟨none⟩ "a" [.pipe "b" []] 0).1 3)) ∧
    endCount (resEvents (run sysT
      (commandContext sysT ⟨none⟩ "a" [.pipe "b" []] 0).1 3)) 3 = 1 := by
  refine ⟨by decide, ?_⟩
  exact (span_close_amended sysT (commandContext sysT ⟨none⟩ "a" [.pipe "b" []] 0).1 3
    (by decide)).2 (by decide) 3 (by decide)

/-- Counterexample to claim C3 as stated: in the pipeline `a | bad` (where
spawning `bad` fails), the head's span (identifier 3) is opened during the
run and receives two `End` calls — the explicit one on the failed-next-start
path plus the deferred finaliser — not exactly one. -/
theorem span_double_end_cex :
    3 ∈ opensOf (resEvents (run sysT
      (commandContext sysT ⟨none⟩ "a" [.pipe "bad" []] 0).1 3)) ∧
    endCount (resEvents (run sysT
      (commandContext sysT ⟨none⟩ "a" [.pipe "bad" []] 0).1 3)) 3 = 2 := by
  refine ⟨by decide, by decide⟩
